import Mathlib

/-!
Verification of the `pgdump_toc_edit` TOC codec and rename engine.

Byte streams are modelled as `List Nat` (octets, values < 256 where the source
reads them through a `u8` mask).  Machine `i32` values are modelled as `Int`
with explicit wrap-around (`% 2^32`) where the Rust code reinterprets or
negates; `-x` on `i32::MIN` is modelled with release-mode wrapping semantics.
Fallible readers return `Option (α × List Nat)` (the value and the unconsumed
rest of the stream); a short read or a failed check is `none`.
-/

namespace PgdumpToc

/-- Reinterpret an integer as a 32-bit two's complement value
(`res as i32` / wrapping negation in the source). -/
def toI32 (z : Int) : Int :=
  (z + 2147483648) % 4294967296 - 2147483648

/-- `TocReader::read_int` (src/toc_reader.rs): five bytes, a sign byte
followed by the little-endian magnitude; reconstructs the unsigned value,
reinterprets as `i32` and negates iff the sign byte is nonzero. -/
def read_int : List Nat → Option (Int × List Nat)
  | b0 :: b1 :: b2 :: b3 :: b4 :: rest =>
      let res : Nat := (b1 % 256) + (b2 % 256) * 256 + (b3 % 256) * 65536 + (b4 % 256) * 16777216
      let resSigned : Int := toI32 (res : Int)
      some (if b0 > 0 then toI32 (-resSigned) else resSigned, rest)
  | _ => none

/-- `TocWriter::write_int` (src/toc_writer.rs): sign byte `0` for
non-negative and `1` for negative, then the absolute value as four
little-endian bytes (`-val as u32` wraps for `i32::MIN`). -/
def write_int (val : Int) : List Nat :=
  let u : Nat := if 0 ≤ val then val.toNat else ((-val) % 4294967296).toNat
  let s : Nat := if 0 ≤ val then 0 else 1
  [s, u % 256, u / 256 % 256, u / 65536 % 256, u / 16777216 % 256]

theorem toI32_of_lt (n : Nat) (h : n < 2147483648) : toI32 (n : Int) = n := by
  unfold toI32
  omega

theorem toI32_neg_small (n : Nat) (h1 : 1 ≤ n) (h2 : n < 2147483648) :
    toI32 (-(n : Int)) = -(n : Int) := by
  unfold toI32
  omega

/-- Reading back a canonical negative magnitude: reinterpret then negate,
with wrap-around, is plain negation for magnitudes in `[1, 2^31]`. -/
theorem toI32_neg_toI32 (m : Nat) (h1 : 1 ≤ m) (h2 : m ≤ 2147483648) :
    toI32 (-(toI32 (m : Int))) = -(m : Int) := by
  unfold toI32
  omega

/-- Base-256 digit recovery for a four-digit little-endian number. -/
theorem digits4 (b1 b2 b3 b4 : Nat) (h1 : b1 < 256) (h2 : b2 < 256)
    (h3 : b3 < 256) (h4 : b4 < 256) :
    let m := b1 + b2 * 256 + b3 * 65536 + b4 * 16777216
    m % 256 = b1 ∧ m / 256 % 256 = b2 ∧ m / 65536 % 256 = b3 ∧ m / 16777216 % 256 = b4 := by
  refine ⟨?_, ?_, ?_, ?_⟩ <;> omega

/-- Little-endian digit recomposition with the reader's `& 0xFF` masks. -/
theorem recomp256 (u : Nat) (h : u < 4294967296) :
    u % 256 % 256 + u / 256 % 256 % 256 * 256 + u / 65536 % 256 % 256 * 65536 +
      u / 16777216 % 256 % 256 * 16777216 = u := by
  omega

/-- Writing any in-range `i32` then reading gives the value back. -/
theorem read_write_int (v : Int) (r : List Nat)
    (hlo : -2147483648 ≤ v) (hhi : v < 2147483648) :
    read_int (write_int v ++ r) = some (v, r) := by
  by_cases hv : 0 ≤ v
  · have hn : v.toNat < 2147483648 := by omega
    simp only [write_int, if_pos hv, read_int, List.cons_append, List.nil_append]
    rw [recomp256 v.toNat (by omega)]
    simp only [gt_iff_lt, lt_irrefl, if_false, Option.some.injEq, Prod.mk.injEq, and_true]
    rw [toI32_of_lt _ hn]
    omega
  · have hmod : (-v) % 4294967296 = -v := by omega
    simp only [write_int, if_neg hv, read_int, List.cons_append, List.nil_append, hmod]
    rw [recomp256 (-v).toNat (by omega)]
    simp only [gt_iff_lt, Nat.zero_lt_one, if_true, Option.some.injEq, Prod.mk.injEq, and_true]
    unfold toI32
    omega

/-- `TocString` (src/toc_string.rs): a three-state value — absent
(`opt = none`), empty (`opt = some []`) or present with raw bytes. -/
structure TocString where
  opt : Option (List Nat)
deriving Repr, DecidableEq

def TocString.new (buf : List Nat) : TocString := ⟨some buf⟩

def TocString.none : TocString := ⟨Option.none⟩

def TocString.empty : TocString := ⟨some []⟩

/-- `TocDateTime` (src/toc_datetime.rs): seven broken-down integers. -/
structure TocDateTime where
  second : Int
  minute : Int
  hour : Int
  day : Int
  month : Int
  year : Int
  is_dst : Int
deriving Repr, DecidableEq

/-- `TocHeader` (src/toc_header.rs). -/
structure TocHeader where
  magic : List Nat
  version : List Nat
  flags : List Nat
  compression : Int
  timestamp : TocDateTime
  postgres_dbname : TocString
  version_server : TocString
  version_pgdump : TocString
  toc_count : Int
deriving Repr, DecidableEq

/-- `TocEntry` (src/toc_entry.rs).  The Rust fields `namespace` and `section` are Lean
keywords and are embedded as `namespace_` and `section_`. -/
structure TocEntry where
  dump_id : Int
  had_dumper : Int
  table_oid : TocString
  catalog_oid : TocString
  tag : TocString
  description : TocString
  section_ : Int
  create_stmt : TocString
  drop_stmt : TocString
  copy_stmt : TocString
  namespace_ : TocString
  tablespace : TocString
  tableam : TocString
  owner : TocString
  table_with_oids : TocString
  deps : List TocString
  filename : TocString
deriving Repr, DecidableEq

namespace TocReader

/-- `TocReader::read_magic`: five bytes that must equal `P G D M P`. -/
def read_magic : List Nat → Option (List Nat × List Nat)
  | a :: b :: c :: d :: e :: rest =>
      if a = 80 ∧ b = 71 ∧ c = 68 ∧ d = 77 ∧ e = 80
      then some ([a, b, c, d, e], rest) else Option.none
  | _ => Option.none

/-- `TocReader::read_version` (src/toc_reader.rs line 50):
`if 1u8 != buf[0] || 14u8 != buf[1]` is a failure. -/
def read_version : List Nat → Option (List Nat × List Nat)
  | a :: b :: c :: rest =>
      if ¬ (1 = a) ∨ ¬ (14 = b) then Option.none else some ([a, b, c], rest)
  | _ => Option.none

/-- `TocReader::read_flags`: int size `4`, offset size `8`, format `3`. -/
def read_flags : List Nat → Option (List Nat × List Nat)
  | a :: b :: c :: rest =>
      if ¬ (4 = a) then Option.none
      else if ¬ (8 = b) then Option.none
      else if ¬ (3 = c) then Option.none
      else some ([a, b, c], rest)
  | _ => Option.none

/-- `TocReader::read_datetime`: seven raw integers, no validation. -/
def read_datetime (s : List Nat) : Option (TocDateTime × List Nat) :=
  match read_int s with
  | Option.none => Option.none
  | some (sec, s1) =>
    match read_int s1 with
    | Option.none => Option.none
    | some (min, s2) =>
      match read_int s2 with
      | Option.none => Option.none
      | some (hour, s3) =>
        match read_int s3 with
        | Option.none => Option.none
        | some (day, s4) =>
          match read_int s4 with
          | Option.none => Option.none
          | some (month, s5) =>
            match read_int s5 with
            | Option.none => Option.none
            | some (year, s6) =>
              match read_int s6 with
              | Option.none => Option.none
              | some (is_dst, s7) =>
                some (⟨sec, min, hour, day, month, year, is_dst⟩, s7)

/-- `TocReader::read_string`: negative length is the absent string, `0` the
empty string, a positive length is followed by that many raw bytes. -/
def read_string (s : List Nat) : Option (TocString × List Nat) :=
  match read_int s with
  | Option.none => Option.none
  | some (len, r) =>
      if len < 0 then some (TocString.none, r)
      else if len = 0 then some (TocString.empty, r)
      else if r.length < len.toNat then Option.none
      else some (TocString.new (r.take len.toNat), r.drop len.toNat)

/-- `TocReader::read_header`. -/
def read_header (s : List Nat) : Option (TocHeader × List Nat) :=
  match read_magic s with
  | Option.none => Option.none
  | some (magic, s1) =>
    match read_version s1 with
    | Option.none => Option.none
    | some (version, s2) =>
      match read_flags s2 with
      | Option.none => Option.none
      | some (flags, s3) =>
        match read_int s3 with
        | Option.none => Option.none
        | some (compression, s4) =>
          match read_datetime s4 with
          | Option.none => Option.none
          | some (timestamp, s5) =>
            match read_string s5 with
            | Option.none => Option.none
            | some (postgres_dbname, s6) =>
              match read_string s6 with
              | Option.none => Option.none
              | some (version_server, s7) =>
                match read_string s7 with
                | Option.none => Option.none
                | some (version_pgdump, s8) =>
                  match read_int s8 with
                  | Option.none => Option.none
                  | some (toc_count, s9) =>
                    some (⟨magic, version, flags, compression, timestamp, postgres_dbname, version_server, version_pgdump, toc_count⟩, s9)

/-- The dependency loop of `TocReader::read_entry`: keep reading strings
until an absent one.  The loop consumes at least five bytes per iteration, so
a fuel of `stream length + 1` can never be exhausted and the fuel-indexed
function agrees with the source's unbounded loop. -/
def readDeps : Nat → List Nat → Option (List TocString × List Nat)
  | 0, _ => Option.none
  | fuel + 1, s =>
      match read_string s with
      | Option.none => Option.none
      | some (st, r) =>
          match st.opt with
          | Option.none => some ([], r)
          | some _ =>
              match readDeps fuel r with
              | Option.none => Option.none
              | some (ds, r2) => some (st :: ds, r2)

/-- `TocReader::read_entry`. -/
def read_entry (s : List Nat) : Option (TocEntry × List Nat) :=
  match read_int s with
  | Option.none => Option.none
  | some (dump_id, s1) =>
    match read_int s1 with
    | Option.none => Option.none
    | some (had_dumper, s2) =>
      match read_string s2 with
      | Option.none => Option.none
      | some (table_oid, s3) =>
        match read_string s3 with
        | Option.none => Option.none
        | some (catalog_oid, s4) =>
          match read_string s4 with
          | Option.none => Option.none
          | some (tag, s5) =>
            match read_string s5 with
            | Option.none => Option.none
            | some (description, s6) =>
              match read_int s6 with
              | Option.none => Option.none
              | some (section_, s7) =>
                match read_string s7 with
                | Option.none => Option.none
                | some (create_stmt, s8) =>
                  match read_string s8 with
                  | Option.none => Option.none
                  | some (drop_stmt, s9) =>
                    match read_string s9 with
                    | Option.none => Option.none
                    | some (copy_stmt, s10) =>
                      match read_string s10 with
                      | Option.none => Option.none
                      | some (namespace_, s11) =>
                        match read_string s11 with
                        | Option.none => Option.none
                        | some (tablespace, s12) =>
                          match read_string s12 with
                          | Option.none => Option.none
                          | some (tableam, s13) =>
                            match read_string s13 with
                            | Option.none => Option.none
                            | some (owner, s14) =>
                              match read_string s14 with
                              | Option.none => Option.none
                              | some (table_with_oids, s15) =>
                                match readDeps (s15.length + 1) s15 with
                                | Option.none => Option.none
                                | some (deps, s16) =>
                                  match read_string s16 with
                                  | Option.none => Option.none
                                  | some (filename, s17) =>
                                    some (⟨dump_id, had_dumper, table_oid, catalog_oid, tag, description, section_,
                                           create_stmt, drop_stmt, copy_stmt, namespace_, tablespace, tableam,
                                           owner, table_with_oids, deps, filename⟩, s17)

/-- `toc_count` successive calls of `read_entry`. -/
def readEntries : Nat → List Nat → Option (List TocEntry × List Nat)
  | 0, s => some ([], s)
  | n + 1, s =>
      match read_entry s with
      | Option.none => Option.none
      | some (e, s1) =>
          match readEntries n s1 with
          | Option.none => Option.none
          | some (es, s2) => some (e :: es, s2)

end TocReader

namespace TocWriter

/-- `TocWriter::write_string`: present bytes are written with their length
prefix, the absent string as length `-1`. -/
def write_string (ts : TocString) : List Nat :=
  match ts.opt with
  | some bytes => write_int (bytes.length : Int) ++ bytes
  | Option.none => write_int (-1)

/-- `TocWriter::write_timestamp`: the seven integers, verbatim. -/
def write_timestamp (tm : TocDateTime) : List Nat :=
  write_int tm.second ++ write_int tm.minute ++ write_int tm.hour ++
  write_int tm.day ++ write_int tm.month ++ write_int tm.year ++
  write_int tm.is_dst

/-- `TocWriter::write_header`. -/
def write_header (h : TocHeader) : List Nat :=
  h.magic ++ h.version ++ h.flags ++ write_int h.compression ++
  write_timestamp h.timestamp ++ write_string h.postgres_dbname ++
  write_string h.version_server ++ write_string h.version_pgdump ++
  write_int h.toc_count

/-- `TocWriter::write_toc_entry`: the fixed fields, each dependency, the
absent-string sentinel, then the filename. -/
def write_toc_entry (te : TocEntry) : List Nat :=
  write_int te.dump_id ++ write_int te.had_dumper ++
  write_string te.table_oid ++ write_string te.catalog_oid ++
  write_string te.tag ++ write_string te.description ++
  write_int te.section_ ++ write_string te.create_stmt ++
  write_string te.drop_stmt ++ write_string te.copy_stmt ++
  write_string te.namespace_ ++ write_string te.tablespace ++
  write_string te.tableam ++ write_string te.owner ++
  write_string te.table_with_oids ++
  (te.deps.map write_string).flatten ++ write_string TocString.none ++
  write_string te.filename

/-- Writing a list of entries in order. -/
def writeEntries (es : List TocEntry) : List Nat :=
  (es.map write_toc_entry).flatten

end TocWriter

/-!
Canonically encoded streams.  `read_int` accepts more than `write_int` ever
emits (any nonzero sign byte means negative, magnitudes are reduced mod 2^32,
any negative string length means absent), so read-then-write is the identity
only on streams whose integer fields use the writer's canonical encoding.
The `Ck` readers below are the plain readers with that extra validity check;
they define the class of streams for which the byte-identity round trip is
proved, and they accept exactly the 5-byte groups `write_int` can emit. -/
namespace Canon

/-- `read_int` restricted to canonical 5-byte encodings: octet digits, sign
byte `0` with magnitude below `2^31`, or sign byte `1` with magnitude in
`[1, 2^31]`. -/
def readCkInt : List Nat → Option (Int × List Nat)
  | b0 :: b1 :: b2 :: b3 :: b4 :: rest =>
      let m : Nat := b1 + b2 * 256 + b3 * 65536 + b4 * 16777216
      if b1 < 256 ∧ b2 < 256 ∧ b3 < 256 ∧ b4 < 256 ∧
          ((b0 = 0 ∧ m < 2147483648) ∨ (b0 = 1 ∧ 1 ≤ m ∧ m ≤ 2147483648))
      then read_int (b0 :: b1 :: b2 :: b3 :: b4 :: rest)
      else Option.none
  | _ => Option.none

theorem readCkInt_spec {s : List Nat} {v : Int} {r : List Nat}
    (h : readCkInt s = some (v, r)) :
    read_int s = some (v, r) ∧ write_int v ++ r = s ∧
      -2147483648 ≤ v ∧ v < 2147483648 := by
  match s with
  | [] => simp [readCkInt] at h
  | [_] => simp [readCkInt] at h
  | [_, _] => simp [readCkInt] at h
  | [_, _, _] => simp [readCkInt] at h
  | [_, _, _, _] => simp [readCkInt] at h
  | b0 :: b1 :: b2 :: b3 :: b4 :: rest =>
    rw [readCkInt] at h
    split_ifs at h with hc
    obtain ⟨h1, h2, h3, h4, hor⟩ := hc
    rw [read_int] at h
    simp only [Option.some.injEq, Prod.mk.injEq] at h
    obtain ⟨hv, hr⟩ := h
    subst hr
    have e1 : b1 % 256 = b1 := Nat.mod_eq_of_lt h1
    have e2 : b2 % 256 = b2 := Nat.mod_eq_of_lt h2
    have e3 : b3 % 256 = b3 := Nat.mod_eq_of_lt h3
    have e4 : b4 % 256 = b4 := Nat.mod_eq_of_lt h4
    rw [e1, e2, e3, e4] at hv
    rcases hor with ⟨hb0, hm⟩ | ⟨hb0, hm1, hm2⟩
    · subst hb0
      simp only [gt_iff_lt, lt_irrefl, if_false] at hv
      rw [toI32_of_lt _ hm] at hv
      have hread : read_int (0 :: b1 :: b2 :: b3 :: b4 :: rest) = some (v, rest) := by
        rw [read_int]
        rw [e1, e2, e3, e4, toI32_of_lt _ hm, hv]
        simp
      have h0v : 0 ≤ v := by omega
      have hvt : v.toNat = b1 + b2 * 256 + b3 * 65536 + b4 * 16777216 := by omega
      have hwrite : write_int v ++ rest = 0 :: b1 :: b2 :: b3 :: b4 :: rest := by
        simp only [write_int, if_pos h0v, hvt, List.cons_append, List.nil_append,
          List.cons.injEq]
        exact ⟨trivial, by omega, by omega, by omega, by omega, trivial⟩
      exact ⟨hread, hwrite, by omega, by omega⟩
    · subst hb0
      simp only [gt_iff_lt, Nat.zero_lt_one, if_true] at hv
      have hv2 : v = -((b1 + b2 * 256 + b3 * 65536 + b4 * 16777216 : Nat) : Int) := by
        rw [← hv, toI32_neg_toI32 _ hm1 hm2]
      have hread : read_int (1 :: b1 :: b2 :: b3 :: b4 :: rest) = some (v, rest) := by
        rw [read_int]
        rw [e1, e2, e3, e4]
        simp only [gt_iff_lt, Nat.zero_lt_one, if_true]
        rw [hv]
      clear hv
      have h0v : ¬ (0 ≤ v) := by omega
      have hmv : ((-v) % 4294967296).toNat = b1 + b2 * 256 + b3 * 65536 + b4 * 16777216 := by
        omega
      have hwrite : write_int v ++ rest = 1 :: b1 :: b2 :: b3 :: b4 :: rest := by
        simp only [write_int, if_neg h0v, hmv, List.cons_append, List.nil_append,
          List.cons.injEq]
        exact ⟨trivial, by omega, by omega, by omega, by omega, trivial⟩
      exact ⟨hread, hwrite, by omega, by omega⟩

/-- `read_string` restricted to canonical encodings: the length field is a
canonical integer and an absent string is encoded by length `-1` exactly
(the reader accepts any negative length as absent, but the writer re-emits
`-1`). -/
def readCkString (s : List Nat) : Option (TocString × List Nat) :=
  match readCkInt s with
  | Option.none => Option.none
  | some (len, r) =>
      if len < -1 then Option.none
      else if len < 0 then some (TocString.none, r)
      else if len = 0 then some (TocString.empty, r)
      else if r.length < len.toNat then Option.none
      else some (TocString.new (r.take len.toNat), r.drop len.toNat)

theorem readCkString_spec {s : List Nat} {ts : TocString} {r : List Nat}
    (h : readCkString s = some (ts, r)) :
    TocReader.read_string s = some (ts, r) ∧ TocWriter.write_string ts ++ r = s ∧
      ∀ bs, ts.opt = some bs → (bs.length : Int) < 2147483648 := by
  rw [readCkString] at h
  cases hck : readCkInt s with
  | none => rw [hck] at h; exact absurd h (by simp)
  | some p =>
    obtain ⟨len, r1⟩ := p
    rw [hck] at h
    dsimp only at h
    obtain ⟨hri, hwi, hlo, hhi⟩ := readCkInt_spec hck
    split_ifs at h with h1 h2 h3 h4
    · simp only [Option.some.injEq, Prod.mk.injEq] at h
      obtain ⟨hts, hr⟩ := h
      subst hts; subst hr
      have hlen : len = -1 := by omega
      subst hlen
      refine ⟨?_, ?_, ?_⟩
      · rw [TocReader.read_string, hri]
        simp
      · rw [TocWriter.write_string]
        exact hwi
      · intro bs habs
        simp [TocString.none] at habs
    · simp only [Option.some.injEq, Prod.mk.injEq] at h
      obtain ⟨hts, hr⟩ := h
      subst hts; subst hr
      subst h3
      refine ⟨?_, ?_, ?_⟩
      · rw [TocReader.read_string, hri]
        simp
      · rw [TocWriter.write_string]
        simpa [TocString.empty] using hwi
      · intro bs habs
        simp only [TocString.empty, Option.some.injEq] at habs
        subst habs
        simp
    · simp only [Option.some.injEq, Prod.mk.injEq] at h
      obtain ⟨hts, hr⟩ := h
      subst hts; subst hr
      have hpos : 0 < len := by omega
      have hlen : (r1.take len.toNat).length = len.toNat := by
        simp only [List.length_take]
        omega
      refine ⟨?_, ?_, ?_⟩
      · rw [TocReader.read_string, hri]
        dsimp only
        rw [if_neg h2, if_neg h3, if_neg h4]
      · rw [TocWriter.write_string]
        simp only [TocString.new, hlen]
        have hcast : ((len.toNat : Nat) : Int) = len := by omega
        rw [hcast, List.append_assoc, List.take_append_drop]
        exact hwi
      · intro bs habs
        simp only [TocString.new, Option.some.injEq] at habs
        subst habs
        rw [hlen]
        omega

theorem read_magic_spec {s : List Nat} {m : List Nat} {r : List Nat}
    (h : TocReader.read_magic s = some (m, r)) :
    m ++ r = s ∧ m = [80, 71, 68, 77, 80] := by
  match s with
  | [] => simp [TocReader.read_magic] at h
  | [_] => simp [TocReader.read_magic] at h
  | [_, _] => simp [TocReader.read_magic] at h
  | [_, _, _] => simp [TocReader.read_magic] at h
  | [_, _, _, _] => simp [TocReader.read_magic] at h
  | a :: b :: c :: d :: e :: rest =>
    rw [TocReader.read_magic] at h
    split_ifs at h with hc
    obtain ⟨ha, hb, hcc, hd, he⟩ := hc
    simp only [Option.some.injEq, Prod.mk.injEq] at h
    obtain ⟨hm, hr⟩ := h
    subst hm; subst hr; subst ha; subst hb; subst hcc; subst hd; subst he
    exact ⟨rfl, rfl⟩

/-- `read_version` restricted to octet streams (third byte < 256); the
first two bytes are already forced to `1` and `14` by the reader itself. -/
def readCkVersion (s : List Nat) : Option (List Nat × List Nat) :=
  match s with
  | a :: b :: c :: rest =>
      if c < 256 then TocReader.read_version (a :: b :: c :: rest) else Option.none
  | _ => Option.none

theorem readCkVersion_spec {s : List Nat} {ver : List Nat} {r : List Nat}
    (h : readCkVersion s = some (ver, r)) :
    TocReader.read_version s = some (ver, r) ∧ ver ++ r = s ∧
      ∃ c, ver = [1, 14, c] ∧ c < 256 := by
  match s with
  | [] => simp [readCkVersion] at h
  | [_] => simp [readCkVersion] at h
  | [_, _] => simp [readCkVersion] at h
  | a :: b :: c :: rest =>
    rw [readCkVersion] at h
    split_ifs at h with hc
    rw [TocReader.read_version] at h ⊢
    split_ifs at h with hv
    simp only [Option.some.injEq, Prod.mk.injEq] at h
    obtain ⟨hm, hr⟩ := h
    subst hm; subst hr
    push_neg at hv
    obtain ⟨ha, hb⟩ := hv
    subst ha; subst hb
    rw [if_neg (by simp)]
    exact ⟨rfl, rfl, c, rfl, hc⟩

theorem read_flags_spec {s : List Nat} {fl : List Nat} {r : List Nat}
    (h : TocReader.read_flags s = some (fl, r)) :
    fl ++ r = s ∧ fl = [4, 8, 3] := by
  match s with
  | [] => simp [TocReader.read_flags] at h
  | [_] => simp [TocReader.read_flags] at h
  | [_, _] => simp [TocReader.read_flags] at h
  | a :: b :: c :: rest =>
    rw [TocReader.read_flags] at h
    split_ifs at h with h1 h2 h3
    simp only [Option.some.injEq, Prod.mk.injEq, not_not] at h h1 h2 h3
    obtain ⟨hm, hr⟩ := h
    subst hm; subst hr; subst h1; subst h2; subst h3
    exact ⟨rfl, rfl⟩

/-- `read_datetime` over canonical integer encodings. -/
def readCkDatetime (s : List Nat) : Option (TocDateTime × List Nat) :=
  match readCkInt s with
  | Option.none => Option.none
  | some (sec, s1) =>
    match readCkInt s1 with
    | Option.none => Option.none
    | some (min, s2) =>
      match readCkInt s2 with
      | Option.none => Option.none
      | some (hour, s3) =>
        match readCkInt s3 with
        | Option.none => Option.none
        | some (day, s4) =>
          match readCkInt s4 with
          | Option.none => Option.none
          | some (month, s5) =>
            match readCkInt s5 with
            | Option.none => Option.none
            | some (year, s6) =>
              match readCkInt s6 with
              | Option.none => Option.none
              | some (is_dst, s7) =>
                some (⟨sec, min, hour, day, month, year, is_dst⟩, s7)

theorem readCkDatetime_spec {s : List Nat} {dt : TocDateTime} {r : List Nat}
    (h : readCkDatetime s = some (dt, r)) :
    TocReader.read_datetime s = some (dt, r) ∧
      TocWriter.write_timestamp dt ++ r = s := by
  rw [readCkDatetime] at h
  cases hc1 : readCkInt s with
  | none => rw [hc1] at h; exact absurd h (by simp)
  | some p1 =>
  obtain ⟨sec, s1⟩ := p1
  rw [hc1] at h
  dsimp only at h
  obtain ⟨hr1, hw1, hlo1, hhi1⟩ := readCkInt_spec hc1
  cases hc2 : readCkInt s1 with
  | none => rw [hc2] at h; exact absurd h (by simp)
  | some p2 =>
  obtain ⟨min, s2⟩ := p2
  rw [hc2] at h
  dsimp only at h
  obtain ⟨hr2, hw2, hlo2, hhi2⟩ := readCkInt_spec hc2
  cases hc3 : readCkInt s2 with
  | none => rw [hc3] at h; exact absurd h (by simp)
  | some p3 =>
  obtain ⟨hour, s3⟩ := p3
  rw [hc3] at h
  dsimp only at h
  obtain ⟨hr3, hw3, hlo3, hhi3⟩ := readCkInt_spec hc3
  cases hc4 : readCkInt s3 with
  | none => rw [hc4] at h; exact absurd h (by simp)
  | some p4 =>
  obtain ⟨day, s4⟩ := p4
  rw [hc4] at h
  dsimp only at h
  obtain ⟨hr4, hw4, hlo4, hhi4⟩ := readCkInt_spec hc4
  cases hc5 : readCkInt s4 with
  | none => rw [hc5] at h; exact absurd h (by simp)
  | some p5 =>
  obtain ⟨month, s5⟩ := p5
  rw [hc5] at h
  dsimp only at h
  obtain ⟨hr5, hw5, hlo5, hhi5⟩ := readCkInt_spec hc5
  cases hc6 : readCkInt s5 with
  | none => rw [hc6] at h; exact absurd h (by simp)
  | some p6 =>
  obtain ⟨year, s6⟩ := p6
  rw [hc6] at h
  dsimp only at h
  obtain ⟨hr6, hw6, hlo6, hhi6⟩ := readCkInt_spec hc6
  cases hc7 : readCkInt s6 with
  | none => rw [hc7] at h; exact absurd h (by simp)
  | some p7 =>
  obtain ⟨is_dst, s7⟩ := p7
  rw [hc7] at h
  dsimp only at h
  obtain ⟨hr7, hw7, hlo7, hhi7⟩ := readCkInt_spec hc7
  simp only [Option.some.injEq, Prod.mk.injEq] at h
  obtain ⟨hdt, hrr⟩ := h
  subst hdt; subst hrr
  constructor
  · rw [TocReader.read_datetime]
    rw [hr1]
    dsimp only
    rw [hr2]
    dsimp only
    rw [hr3]
    dsimp only
    rw [hr4]
    dsimp only
    rw [hr5]
    dsimp only
    rw [hr6]
    dsimp only
    rw [hr7]
  · rw [TocWriter.write_timestamp]
    simp only [List.append_assoc]
    rw [hw7, hw6, hw5, hw4, hw3, hw2, hw1]

/-- `read_header` over canonical field encodings. -/
def readCkHeader (s : List Nat) : Option (TocHeader × List Nat) :=
  match TocReader.read_magic s with
  | Option.none => Option.none
  | some (magic, s1) =>
    match readCkVersion s1 with
    | Option.none => Option.none
    | some (version, s2) =>
      match TocReader.read_flags s2 with
      | Option.none => Option.none
      | some (flags, s3) =>
        match readCkInt s3 with
        | Option.none => Option.none
        | some (compression, s4) =>
          match readCkDatetime s4 with
          | Option.none => Option.none
          | some (timestamp, s5) =>
            match readCkString s5 with
            | Option.none => Option.none
            | some (postgres_dbname, s6) =>
              match readCkString s6 with
              | Option.none => Option.none
              | some (version_server, s7) =>
                match readCkString s7 with
                | Option.none => Option.none
                | some (version_pgdump, s8) =>
                  match readCkInt s8 with
                  | Option.none => Option.none
                  | some (toc_count, s9) =>
                    some (⟨magic, version, flags, compression, timestamp, postgres_dbname, version_server, version_pgdump, toc_count⟩, s9)

theorem readCkHeader_spec {s : List Nat} {hd : TocHeader} {r : List Nat}
    (h : readCkHeader s = some (hd, r)) :
    TocReader.read_header s = some (hd, r) ∧
      TocWriter.write_header hd ++ r = s ∧
      (∀ b ∈ hd.magic, b < 256) ∧ (∀ b ∈ hd.version, b < 256) ∧
      (∀ b ∈ hd.flags, b < 256) := by
  rw [readCkHeader] at h
  cases hc1 : TocReader.read_magic s with
  | none => rw [hc1] at h; exact absurd h (by simp)
  | some p1 =>
  obtain ⟨magic, s1⟩ := p1
  rw [hc1] at h
  dsimp only at h
  cases hc2 : readCkVersion s1 with
  | none => rw [hc2] at h; exact absurd h (by simp)
  | some p2 =>
  obtain ⟨version, s2⟩ := p2
  rw [hc2] at h
  dsimp only at h
  cases hc3 : TocReader.read_flags s2 with
  | none => rw [hc3] at h; exact absurd h (by simp)
  | some p3 =>
  obtain ⟨flags, s3⟩ := p3
  rw [hc3] at h
  dsimp only at h
  cases hc4 : readCkInt s3 with
  | none => rw [hc4] at h; exact absurd h (by simp)
  | some p4 =>
  obtain ⟨compression, s4⟩ := p4
  rw [hc4] at h
  dsimp only at h
  cases hc5 : readCkDatetime s4 with
  | none => rw [hc5] at h; exact absurd h (by simp)
  | some p5 =>
  obtain ⟨timestamp, s5⟩ := p5
  rw [hc5] at h
  dsimp only at h
  cases hc6 : readCkString s5 with
  | none => rw [hc6] at h; exact absurd h (by simp)
  | some p6 =>
  obtain ⟨postgres_dbname, s6⟩ := p6
  rw [hc6] at h
  dsimp only at h
  cases hc7 : readCkString s6 with
  | none => rw [hc7] at h; exact absurd h (by simp)
  | some p7 =>
  obtain ⟨version_server, s7⟩ := p7
  rw [hc7] at h
  dsimp only at h
  cases hc8 : readCkString s7 with
  | none => rw [hc8] at h; exact absurd h (by simp)
  | some p8 =>
  obtain ⟨version_pgdump, s8⟩ := p8
  rw [hc8] at h
  dsimp only at h
  cases hc9 : readCkInt s8 with
  | none => rw [hc9] at h; exact absurd h (by simp)
  | some p9 =>
  obtain ⟨toc_count, s9⟩ := p9
  rw [hc9] at h
  dsimp only at h
  obtain ⟨hwm, hmv⟩ := read_magic_spec hc1
  obtain ⟨hrver, hwver, c, hverv, hclt⟩ := readCkVersion_spec hc2
  obtain ⟨hwf, hfv⟩ := read_flags_spec hc3
  obtain ⟨hr4, hw4, hlo4, hhi4⟩ := readCkInt_spec hc4
  obtain ⟨hr5, hw5⟩ := readCkDatetime_spec hc5
  obtain ⟨hr6, hw6, hl6⟩ := readCkString_spec hc6
  obtain ⟨hr7, hw7, hl7⟩ := readCkString_spec hc7
  obtain ⟨hr8, hw8, hl8⟩ := readCkString_spec hc8
  obtain ⟨hr9, hw9, hlo9, hhi9⟩ := readCkInt_spec hc9
  simp only [Option.some.injEq, Prod.mk.injEq] at h
  obtain ⟨hhd, hrr⟩ := h
  subst hhd; subst hrr
  refine ⟨?_, ?_, ?_, ?_, ?_⟩
  · rw [TocReader.read_header]
    rw [hc1]
    dsimp only
    rw [hrver]
    dsimp only
    rw [hc3]
    dsimp only
    rw [hr4]
    dsimp only
    rw [hr5]
    dsimp only
    rw [hr6]
    dsimp only
    rw [hr7]
    dsimp only
    rw [hr8]
    dsimp only
    rw [hr9]
  · rw [TocWriter.write_header]
    simp only [List.append_assoc]
    rw [hw9, hw8, hw7, hw6, hw5, hw4, hwf, hwver, hwm]
  · rw [hmv]; intro b hb; fin_cases hb <;> omega
  · rw [hverv]; intro b hb; fin_cases hb <;> omega
  · rw [hfv]; intro b hb; fin_cases hb <;> omega

/-- The dependency loop over canonical encodings. -/
def readCkDeps : Nat → List Nat → Option (List TocString × List Nat)
  | 0, _ => Option.none
  | fuel + 1, s =>
      match readCkString s with
      | Option.none => Option.none
      | some (st, r) =>
          match st.opt with
          | Option.none => some ([], r)
          | some _ =>
              match readCkDeps fuel r with
              | Option.none => Option.none
              | some (ds, r2) => some (st :: ds, r2)

theorem readCkDeps_spec : ∀ (fuel : Nat) {s : List Nat} {ds : List TocString} {r : List Nat},
    readCkDeps fuel s = some (ds, r) →
    TocReader.readDeps fuel s = some (ds, r) ∧
      (ds.map TocWriter.write_string).flatten ++
        TocWriter.write_string TocString.none ++ r = s := by
  intro fuel
  induction fuel with
  | zero => intro s ds r h; simp [readCkDeps] at h
  | succ n ih =>
    intro s ds r h
    rw [readCkDeps] at h
    cases hs : readCkString s with
    | none => rw [hs] at h; exact absurd h (by simp)
    | some p =>
      obtain ⟨st, r1⟩ := p
      rw [hs] at h
      dsimp only at h
      obtain ⟨hrs, hws, hlb⟩ := readCkString_spec hs
      cases hst : st.opt with
      | none =>
        rw [hst] at h
        dsimp only at h
        simp only [Option.some.injEq, Prod.mk.injEq] at h
        obtain ⟨hds, hr⟩ := h
        subst hds; subst hr
        have hstn : st = TocString.none := by
          obtain ⟨o⟩ := st
          simp only at hst
          rw [hst]
          rfl
        constructor
        · rw [TocReader.readDeps, hrs]
          dsimp only
          rw [hst]
        · simp only [List.map_nil, List.flatten_nil, List.nil_append]
          rw [← hstn]
          exact hws
      | some bs =>
        rw [hst] at h
        dsimp only at h
        cases hrec : readCkDeps n r1 with
        | none => rw [hrec] at h; exact absurd h (by simp)
        | some q =>
          obtain ⟨ds1, r2⟩ := q
          rw [hrec] at h
          dsimp only at h
          simp only [Option.some.injEq, Prod.mk.injEq] at h
          obtain ⟨hds, hr⟩ := h
          subst hds; subst hr
          obtain ⟨ihr, ihw⟩ := ih hrec
          constructor
          · rw [TocReader.readDeps, hrs]
            dsimp only
            rw [hst]
            dsimp only
            rw [ihr]
          · simp only [List.map_cons, List.flatten_cons, List.append_assoc]
            simp only [List.append_assoc] at ihw
            rw [ihw]
            exact hws

/-- `read_entry` over canonical field encodings. -/
def readCkEntry (s : List Nat) : Option (TocEntry × List Nat) :=
  match readCkInt s with
  | Option.none => Option.none
  | some (dump_id, s1) =>
    match readCkInt s1 with
    | Option.none => Option.none
    | some (had_dumper, s2) =>
      match readCkString s2 with
      | Option.none => Option.none
      | some (table_oid, s3) =>
        match readCkString s3 with
        | Option.none => Option.none
        | some (catalog_oid, s4) =>
          match readCkString s4 with
          | Option.none => Option.none
          | some (tag, s5) =>
            match readCkString s5 with
            | Option.none => Option.none
            | some (description, s6) =>
              match readCkInt s6 with
              | Option.none => Option.none
              | some (section_, s7) =>
                match readCkString s7 with
                | Option.none => Option.none
                | some (create_stmt, s8) =>
                  match readCkString s8 with
                  | Option.none => Option.none
                  | some (drop_stmt, s9) =>
                    match readCkString s9 with
                    | Option.none => Option.none
                    | some (copy_stmt, s10) =>
                      match readCkString s10 with
                      | Option.none => Option.none
                      | some (namespace_, s11) =>
                        match readCkString s11 with
                        | Option.none => Option.none
                        | some (tablespace, s12) =>
                          match readCkString s12 with
                          | Option.none => Option.none
                          | some (tableam, s13) =>
                            match readCkString s13 with
                            | Option.none => Option.none
                            | some (owner, s14) =>
                              match readCkString s14 with
                              | Option.none => Option.none
                              | some (table_with_oids, s15) =>
                                match readCkDeps (s15.length + 1) s15 with
                                | Option.none => Option.none
                                | some (deps, s16) =>
                                  match readCkString s16 with
                                  | Option.none => Option.none
                                  | some (filename, s17) =>
                                    some (⟨dump_id, had_dumper, table_oid, catalog_oid, tag, description, section_,
                                           create_stmt, drop_stmt, copy_stmt, namespace_, tablespace, tableam,
                                           owner, table_with_oids, deps, filename⟩, s17)

theorem readCkEntry_spec {s : List Nat} {te : TocEntry} {r : List Nat}
    (h : readCkEntry s = some (te, r)) :
    TocReader.read_entry s = some (te, r) ∧
      TocWriter.write_toc_entry te ++ r = s := by
  rw [readCkEntry] at h
  cases hc1 : readCkInt s with
  | none => rw [hc1] at h; exact absurd h (by simp)
  | some p1 =>
  obtain ⟨dump_id, s1⟩ := p1
  rw [hc1] at h
  dsimp only at h
  cases hc2 : readCkInt s1 with
  | none => rw [hc2] at h; exact absurd h (by simp)
  | some p2 =>
  obtain ⟨had_dumper, s2⟩ := p2
  rw [hc2] at h
  dsimp only at h
  cases hc3 : readCkString s2 with
  | none => rw [hc3] at h; exact absurd h (by simp)
  | some p3 =>
  obtain ⟨table_oid, s3⟩ := p3
  rw [hc3] at h
  dsimp only at h
  cases hc4 : readCkString s3 with
  | none => rw [hc4] at h; exact absurd h (by simp)
  | some p4 =>
  obtain ⟨catalog_oid, s4⟩ := p4
  rw [hc4] at h
  dsimp only at h
  cases hc5 : readCkString s4 with
  | none => rw [hc5] at h; exact absurd h (by simp)
  | some p5 =>
  obtain ⟨tag, s5⟩ := p5
  rw [hc5] at h
  dsimp only at h
  cases hc6 : readCkString s5 with
  | none => rw [hc6] at h; exact absurd h (by simp)
  | some p6 =>
  obtain ⟨description, s6⟩ := p6
  rw [hc6] at h
  dsimp only at h
  cases hc7 : readCkInt s6 with
  | none => rw [hc7] at h; exact absurd h (by simp)
  | some p7 =>
  obtain ⟨section_, s7⟩ := p7
  rw [hc7] at h
  dsimp only at h
  cases hc8 : readCkString s7 with
  | none => rw [hc8] at h; exact absurd h (by simp)
  | some p8 =>
  obtain ⟨create_stmt, s8⟩ := p8
  rw [hc8] at h
  dsimp only at h
  cases hc9 : readCkString s8 with
  | none => rw [hc9] at h; exact absurd h (by simp)
  | some p9 =>
  obtain ⟨drop_stmt, s9⟩ := p9
  rw [hc9] at h
  dsimp only at h
  cases hc10 : readCkString s9 with
  | none => rw [hc10] at h; exact absurd h (by simp)
  | some p10 =>
  obtain ⟨copy_stmt, s10⟩ := p10
  rw [hc10] at h
  dsimp only at h
  cases hc11 : readCkString s10 with
  | none => rw [hc11] at h; exact absurd h (by simp)
  | some p11 =>
  obtain ⟨namespace_, s11⟩ := p11
  rw [hc11] at h
  dsimp only at h
  cases hc12 : readCkString s11 with
  | none => rw [hc12] at h; exact absurd h (by simp)
  | some p12 =>
  obtain ⟨tablespace, s12⟩ := p12
  rw [hc12] at h
  dsimp only at h
  cases hc13 : readCkString s12 with
  | none => rw [hc13] at h; exact absurd h (by simp)
  | some p13 =>
  obtain ⟨tableam, s13⟩ := p13
  rw [hc13] at h
  dsimp only at h
  cases hc14 : readCkString s13 with
  | none => rw [hc14] at h; exact absurd h (by simp)
  | some p14 =>
  obtain ⟨owner, s14⟩ := p14
  rw [hc14] at h
  dsimp only at h
  cases hc15 : readCkString s14 with
  | none => rw [hc15] at h; exact absurd h (by simp)
  | some p15 =>
  obtain ⟨table_with_oids, s15⟩ := p15
  rw [hc15] at h
  dsimp only at h
  cases hc16 : readCkDeps (s15.length + 1) s15 with
  | none => rw [hc16] at h; exact absurd h (by simp)
  | some p16 =>
  obtain ⟨deps, s16⟩ := p16
  rw [hc16] at h
  dsimp only at h
  cases hc17 : readCkString s16 with
  | none => rw [hc17] at h; exact absurd h (by simp)
  | some p17 =>
  obtain ⟨filename, s17⟩ := p17
  rw [hc17] at h
  dsimp only at h
  obtain ⟨hr1, hw1, hlo1, hhi1⟩ := readCkInt_spec hc1
  obtain ⟨hr2, hw2, hlo2, hhi2⟩ := readCkInt_spec hc2
  obtain ⟨hr3, hw3, hlb3⟩ := readCkString_spec hc3
  obtain ⟨hr4, hw4, hlb4⟩ := readCkString_spec hc4
  obtain ⟨hr5, hw5, hlb5⟩ := readCkString_spec hc5
  obtain ⟨hr6, hw6, hlb6⟩ := readCkString_spec hc6
  obtain ⟨hr7, hw7, hlo7, hhi7⟩ := readCkInt_spec hc7
  obtain ⟨hr8, hw8, hlb8⟩ := readCkString_spec hc8
  obtain ⟨hr9, hw9, hlb9⟩ := readCkString_spec hc9
  obtain ⟨hr10, hw10, hlb10⟩ := readCkString_spec hc10
  obtain ⟨hr11, hw11, hlb11⟩ := readCkString_spec hc11
  obtain ⟨hr12, hw12, hlb12⟩ := readCkString_spec hc12
  obtain ⟨hr13, hw13, hlb13⟩ := readCkString_spec hc13
  obtain ⟨hr14, hw14, hlb14⟩ := readCkString_spec hc14
  obtain ⟨hr15, hw15, hlb15⟩ := readCkString_spec hc15
  obtain ⟨hr16, hw16⟩ := readCkDeps_spec _ hc16
  obtain ⟨hr17, hw17, hlb17⟩ := readCkString_spec hc17
  simp only [Option.some.injEq, Prod.mk.injEq] at h
  obtain ⟨hte, hrr⟩ := h
  subst hte; subst hrr
  constructor
  · rw [TocReader.read_entry]
    rw [hr1]
    dsimp only
    rw [hr2]
    dsimp only
    rw [hr3]
    dsimp only
    rw [hr4]
    dsimp only
    rw [hr5]
    dsimp only
    rw [hr6]
    dsimp only
    rw [hr7]
    dsimp only
    rw [hr8]
    dsimp only
    rw [hr9]
    dsimp only
    rw [hr10]
    dsimp only
    rw [hr11]
    dsimp only
    rw [hr12]
    dsimp only
    rw [hr13]
    dsimp only
    rw [hr14]
    dsimp only
    rw [hr15]
    dsimp only
    rw [hr16]
    dsimp only
    rw [hr17]
  · rw [TocWriter.write_toc_entry]
    simp only [List.append_assoc]
    simp only [List.append_assoc] at hw16
    rw [hw17, hw16, hw15, hw14, hw13, hw12, hw11, hw10, hw9, hw8, hw7, hw6, hw5, hw4, hw3, hw2, hw1]

/-- `readEntries` over canonical encodings. -/
def readCkEntries : Nat → List Nat → Option (List TocEntry × List Nat)
  | 0, s => some ([], s)
  | n + 1, s =>
      match readCkEntry s with
      | Option.none => Option.none
      | some (e, s1) =>
          match readCkEntries n s1 with
          | Option.none => Option.none
          | some (es, s2) => some (e :: es, s2)

theorem readCkEntries_spec : ∀ (n : Nat) {s : List Nat} {es : List TocEntry} {r : List Nat},
    readCkEntries n s = some (es, r) →
    TocReader.readEntries n s = some (es, r) ∧ TocWriter.writeEntries es ++ r = s := by
  intro n
  induction n with
  | zero =>
    intro s es r h
    rw [readCkEntries] at h
    simp only [Option.some.injEq, Prod.mk.injEq] at h
    obtain ⟨hes, hr⟩ := h
    subst hes; subst hr
    exact ⟨rfl, rfl⟩
  | succ n ih =>
    intro s es r h
    rw [readCkEntries] at h
    cases he : readCkEntry s with
    | none => rw [he] at h; exact absurd h (by simp)
    | some p =>
      obtain ⟨e, s1⟩ := p
      rw [he] at h
      dsimp only at h
      cases hes : readCkEntries n s1 with
      | none => rw [hes] at h; exact absurd h (by simp)
      | some q =>
        obtain ⟨es1, s2⟩ := q
        rw [hes] at h
        dsimp only at h
        simp only [Option.some.injEq, Prod.mk.injEq] at h
        obtain ⟨he2, hr⟩ := h
        subst he2; subst hr
        obtain ⟨ihr, ihw⟩ := ih hes
        obtain ⟨her, hew⟩ := readCkEntry_spec he
        refine ⟨?_, ?_⟩
        · rw [TocReader.readEntries, her]
          dsimp only
          rw [ihr]
        · rw [TocWriter.writeEntries] at ihw ⊢
          simp only [List.map_cons, List.flatten_cons, List.append_assoc]
          rw [ihw]
          exact hew

end Canon

/-- A `toc.dat` stream that is valid for the reader (magic, version and
flags accepted, `toc_count = 0` entries) but whose `compression` field is
encoded with sign byte `2`; the reader accepts it as `-0 = 0`, so the
writer re-emits sign byte `0` and the bytes differ. -/
def c1CounterBytes : List Nat :=
  [80, 71, 68, 77, 80, 1, 14, 0, 4, 8, 3, 2, 0, 0, 0, 0, 0, 0, 0, 0, 0, 0, 0, 0, 0, 0, 0, 0, 0, 0, 0, 0, 0, 0, 0, 0, 0, 0, 0, 0, 0, 0, 0, 0, 0, 0, 0, 0, 0, 0, 0, 1, 1, 0, 0, 0, 1, 1, 0, 0, 0, 1, 1, 0, 0, 0, 0, 0, 0, 0, 0]

/-- The header parsed from `c1CounterBytes`. -/
def c1CounterHeader : TocHeader :=
  ⟨[80, 71, 68, 77, 80], [1, 14, 0], [4, 8, 3], 0, ⟨0, 0, 0, 0, 0, 0, 0⟩,
   TocString.none, TocString.none, TocString.none, 0⟩

/-- A canonically encoded `toc.dat` stream with zero entries. -/
def c1WitBytes : List Nat :=
  [80, 71, 68, 77, 80, 1, 14, 0, 4, 8, 3, 0, 0, 0, 0, 0, 0, 0, 0, 0, 0, 0, 0, 0, 0, 0, 0, 0, 0, 0, 0, 0, 0, 0, 0, 0, 0, 0, 0, 0, 0, 0, 0, 0, 0, 0, 0, 0, 0, 0, 0, 1, 1, 0, 0, 0, 1, 1, 0, 0, 0, 1, 1, 0, 0, 0, 0, 0, 0, 0, 0]

/-- The header parsed from `c1WitBytes`. -/
def c1WitHeader : TocHeader :=
  ⟨[80, 71, 68, 77, 80], [1, 14, 0], [4, 8, 3], 0, ⟨0, 0, 0, 0, 0, 0, 0⟩,
   TocString.none, TocString.none, TocString.none, 0⟩

/-- **C1** (counterexample): a stream the reader accepts in full (magic,
version and flags pass, `toc_count` entries read) on which read-then-write
is not the identity: the `compression` integer is encoded with sign byte
`2`, which `read_int` treats as negative zero and `write_int` re-emits
with sign byte `0`. -/
theorem c1_counterexample :
    TocReader.read_header c1CounterBytes = some (c1CounterHeader, []) ∧
    TocReader.readEntries c1CounterHeader.toc_count.toNat [] = some ([], []) ∧
    TocWriter.write_header c1CounterHeader ++
      TocWriter.writeEntries [] ≠ c1CounterBytes := by
  refine ⟨by decide, by decide, by decide⟩

/-- **C1** (amended): for every valid `toc.dat` octet stream whose integer
fields are canonically encoded (sign byte `0` with magnitude below `2^31`,
or sign byte `1` with magnitude in `[1, 2^31]`; absent strings use length
`-1` exactly), reading the header and `toc_count` entries and writing them
back reproduces the input bytes. -/
theorem c1_read_then_write_roundtrip {s : List Nat} {h : TocHeader} {n : Nat}
    {es : List TocEntry} {r1 r2 : List Nat}
    (hh : Canon.readCkHeader s = some (h, r1))
    (hn : n = h.toc_count.toNat)
    (he : Canon.readCkEntries n r1 = some (es, r2)) :
    (TocReader.read_header s = some (h, r1) ∧
      TocReader.readEntries n r1 = some (es, r2)) ∧
    TocWriter.write_header h ++ TocWriter.writeEntries es ++ r2 = s := by
  obtain ⟨hr, hw, hb1, hb2, hb3⟩ := Canon.readCkHeader_spec hh
  obtain ⟨her, hew⟩ := Canon.readCkEntries_spec n he
  refine ⟨⟨hr, her⟩, ?_⟩
  simp only [List.append_assoc]
  rw [hew, hw]

/-- Witness for C1: the amended round trip evaluated on a concrete
canonically encoded stream. -/
theorem c1_read_then_write_roundtrip_witness :
    (TocReader.read_header c1WitBytes = some (c1WitHeader, []) ∧
      TocReader.readEntries 0 [] = some ([], [])) ∧
    TocWriter.write_header c1WitHeader ++ TocWriter.writeEntries [] ++ [] = c1WitBytes :=
  c1_read_then_write_roundtrip (by decide) (by decide) (by decide)

/-- **C2**: writing any 32-bit signed integer with `write_int` and reading
it back with `read_int` returns the same integer (one sign byte, four
little-endian magnitude bytes), and the `-0` encoding (sign byte `1`, zero
magnitude) decodes to `0`. -/
theorem c2_int_codec_roundtrip (i : Int) (r : List Nat)
    (hlo : -2147483648 ≤ i) (hhi : i < 2147483648) :
    read_int (write_int i ++ r) = some (i, r) ∧
    read_int (1 :: 0 :: 0 :: 0 :: 0 :: r) = some (0, r) := by
  refine ⟨read_write_int i r hlo hhi, ?_⟩
  rw [read_int]
  norm_num [toI32]

/-- Witness for C2 at `i = -2147483648` (the extreme edge). -/
theorem c2_int_codec_roundtrip_witness :
    read_int (write_int (-2147483648) ++ []) = some (-2147483648, []) ∧
    read_int (1 :: 0 :: 0 :: 0 :: 0 :: []) = some (0, []) :=
  c2_int_codec_roundtrip (-2147483648) [] (by decide) (by decide)

/-!
The civil date-time model.  The source delegates to the external `chrono`
crate; only the constructors and accessors the source uses are modelled:
`NaiveDate::from_ymd_opt` (Gregorian month/day validity; chrono's extreme
±262143-year cutoff is not modelled, no theorem exercises such years) and
`NaiveTime::from_hms_opt` (24-hour clock, no leap seconds via this
constructor).  The source passes `i32` values through `as u32` casts: a
negative value becomes a huge `u32` and fails the range check, which the
signed comparisons below reproduce exactly.
-/
namespace Chrono

structure NaiveDate where
  year : Int
  month : Int
  day : Int
deriving Repr, DecidableEq

structure NaiveTime where
  hour : Int
  minute : Int
  second : Int
deriving Repr, DecidableEq

structure NaiveDateTime where
  date : NaiveDate
  time : NaiveTime
deriving Repr, DecidableEq

def isLeapYear (y : Int) : Bool :=
  (y % 4 == 0 && y % 100 != 0) || y % 400 == 0

def daysInMonth (y m : Int) : Int :=
  if m = 2 then (if isLeapYear y then 29 else 28)
  else if m = 4 ∨ m = 6 ∨ m = 9 ∨ m = 11 then 30
  else 31

def from_ymd_opt (y m d : Int) : Option NaiveDate :=
  if 1 ≤ m ∧ m ≤ 12 ∧ 1 ≤ d ∧ d ≤ daysInMonth y m
  then some ⟨y, m, d⟩ else Option.none

def from_hms_opt (h m s : Int) : Option NaiveTime :=
  if 0 ≤ h ∧ h < 24 ∧ 0 ≤ m ∧ m < 60 ∧ 0 ≤ s ∧ s < 60
  then some ⟨h, m, s⟩ else Option.none

end Chrono

/-- `TocDateTime::to_naive_date_time` (src/toc_datetime.rs): civil-date
conversion used only for display and JSON projection. -/
def TocDateTime.to_naive_date_time (dt : TocDateTime) :
    Except String (Chrono.NaiveDateTime × Bool) :=
  match Chrono.from_ymd_opt (dt.year + 1900) dt.month dt.day with
  | Option.none => .error "Invalid date"
  | some date =>
      match Chrono.from_hms_opt dt.hour dt.minute dt.second with
      | Option.none => .error "Invalid time"
      | some time => .ok (⟨date, time⟩, dt.is_dst > 0)

/-- `TocDateTime::from_naive_date_time` (src/toc_datetime.rs). -/
def TocDateTime.from_naive_date_time (ndt : Chrono.NaiveDateTime) (is_dst : Bool) :
    TocDateTime :=
  ⟨ndt.time.second, ndt.time.minute, ndt.time.hour, ndt.date.day, ndt.date.month,
   ndt.date.year - 1900, if is_dst then 1 else 0⟩

/-!
The standalone reader/writer generation in src/lib.rs.  It shares the
integer codec with the modular files but has its own version check and its
own timestamp handling (`read_version`, `read_timestamp`, `copy_timestamp`).
-/
namespace LibRs

/-- `read_version` (src/lib.rs lines 168-175): the failure condition is
`1u8 != buf[0] && 14u8 != buf[1]` — AND, not OR. -/
def read_version : List Nat → Option (List Nat × List Nat)
  | a :: b :: c :: rest =>
      if ¬ (1 = a) ∧ ¬ (14 = b) then Option.none else some ([a, b, c], rest)
  | _ => Option.none

/-- `read_timestamp` (src/lib.rs lines 249-264): reads the seven integers,
converts to a civil date-time (failing on an invalid date or time) and
discards the DST flag. -/
def read_timestamp (s : List Nat) : Option (Chrono.NaiveDateTime × List Nat) :=
  match read_int s with
  | Option.none => Option.none
  | some (sec, s1) =>
    match read_int s1 with
    | Option.none => Option.none
    | some (min, s2) =>
      match read_int s2 with
      | Option.none => Option.none
      | some (hour, s3) =>
        match read_int s3 with
        | Option.none => Option.none
        | some (day, s4) =>
          match read_int s4 with
          | Option.none => Option.none
          | some (month, s5) =>
            match read_int s5 with
            | Option.none => Option.none
            | some (year, s6) =>
              match read_int s6 with
              | Option.none => Option.none
              | some (_is_dst, s7) =>
                match Chrono.from_ymd_opt (year + 1900) month day with
                | Option.none => Option.none
                | some date =>
                    match Chrono.from_hms_opt hour min sec with
                    | Option.none => Option.none
                    | some time => some (⟨date, time⟩, s7)

/-- `copy_timestamp` (src/lib.rs lines 266-276): re-emits the timestamp
from the converted civil date-time and always writes `0` for the DST flag.
Returns the parsed value, the unconsumed input and the emitted bytes. -/
def copy_timestamp (s : List Nat) : Option (Chrono.NaiveDateTime × List Nat × List Nat) :=
  match read_timestamp s with
  | Option.none => Option.none
  | some (tm, r) =>
      some (tm, r,
        write_int tm.time.second ++ write_int tm.time.minute ++
        write_int tm.time.hour ++ write_int tm.date.day ++
        write_int tm.date.month ++ write_int (tm.date.year - 1900) ++
        write_int 0)

end LibRs

/-- All seven timestamp fields are in `i32` range. -/
def TocDateTime.inI32 (dt : TocDateTime) : Prop :=
  -2147483648 ≤ dt.second ∧ dt.second < 2147483648 ∧
  -2147483648 ≤ dt.minute ∧ dt.minute < 2147483648 ∧
  -2147483648 ≤ dt.hour ∧ dt.hour < 2147483648 ∧
  -2147483648 ≤ dt.day ∧ dt.day < 2147483648 ∧
  -2147483648 ≤ dt.month ∧ dt.month < 2147483648 ∧
  -2147483648 ≤ dt.year ∧ dt.year < 2147483648 ∧
  -2147483648 ≤ dt.is_dst ∧ dt.is_dst < 2147483648

instance (dt : TocDateTime) : Decidable dt.inI32 := by
  unfold TocDateTime.inI32
  infer_instance

/-- The timestamp `04 05 06 07 08 64 01`: 2000-08-07 06:05:04 with DST
flag `1`, in the 5-byte integer encoding. -/
def c7Bytes : List Nat :=
  [0, 4, 0, 0, 0, 0, 5, 0, 0, 0, 0, 6, 0, 0, 0, 0, 7, 0, 0, 0,
   0, 8, 0, 0, 0, 0, 100, 0, 0, 0, 0, 1, 0, 0, 0]

/-- What `copy_timestamp` emits for `c7Bytes`: the same six date-time
integers but DST flag `0`. -/
def c7OutBytes : List Nat :=
  [0, 4, 0, 0, 0, 0, 5, 0, 0, 0, 0, 6, 0, 0, 0, 0, 7, 0, 0, 0,
   0, 8, 0, 0, 0, 0, 100, 0, 0, 0, 0, 0, 0, 0, 0]

/-- **C3**: `TocReader::read_version` (the modular reader) fails exactly
when the first byte is not `1` or the second is not `14`, with the third
byte unconstrained — but the `read_version` in src/lib.rs, used by its
`print_toc` and `rewrite_toc`, combines the two mismatch tests with `&&`
and therefore accepts the version bytes `2 14 0`, contradicting the claim
for those operations. -/
theorem c3_version_check :
    (∀ a b c r, (∃ v, TocReader.read_version (a :: b :: c :: r) = some v) ↔
        (a = 1 ∧ b = 14)) ∧
    LibRs.read_version (2 :: 14 :: 0 :: []) = some ([2, 14, 0], []) := by
  constructor
  · intro a b c r
    constructor
    · rintro ⟨v, hv⟩
      rw [TocReader.read_version] at hv
      split_ifs at hv with hc
      push_neg at hc
      exact ⟨hc.1.symm, hc.2.symm⟩
    · rintro ⟨rfl, rfl⟩
      refine ⟨([1, 14, c], r), ?_⟩
      rw [TocReader.read_version]
      simp
  · decide

/-- **C7**: the binary codec path (`TocReader::read_datetime` /
`TocWriter::write_timestamp`) round-trips all seven timestamp integers
verbatim — including invalid dates such as month `0` and DST flags other
than `0`/`1` — while `copy_timestamp` in src/lib.rs (its rewrite path)
converts through a civil date and always re-emits DST flag `0`: on a
timestamp with DST flag `1` the emitted bytes differ from the input. -/
theorem c7_timestamp_verbatim (dt : TocDateTime) (r : List Nat)
    (hwf : dt.inI32) :
    TocReader.read_datetime (TocWriter.write_timestamp dt ++ r) = some (dt, r) ∧
    (∃ tm, LibRs.copy_timestamp c7Bytes = some (tm, [], c7OutBytes)) ∧
    c7OutBytes ≠ c7Bytes := by
  obtain ⟨h1, h2, h3, h4, h5, h6, h7, h8, h9, h10, h11, h12, h13, h14⟩ := hwf
  refine ⟨?_, ⟨⟨⟨2000, 8, 7⟩, ⟨6, 5, 4⟩⟩, by decide⟩, by decide⟩
  rw [TocWriter.write_timestamp]
  simp only [List.append_assoc]
  rw [TocReader.read_datetime]
  rw [read_write_int dt.second _ h1 h2]
  dsimp only
  rw [read_write_int dt.minute _ h3 h4]
  dsimp only
  rw [read_write_int dt.hour _ h5 h6]
  dsimp only
  rw [read_write_int dt.day _ h7 h8]
  dsimp only
  rw [read_write_int dt.month _ h9 h10]
  dsimp only
  rw [read_write_int dt.year _ h11 h12]
  dsimp only
  rw [read_write_int dt.is_dst _ h13 h14]

/-- Witness for C7 at an *invalid* timestamp (month `0`, DST flag `7`):
the codec still reproduces it verbatim. -/
theorem c7_timestamp_verbatim_witness :
    TocReader.read_datetime
        (TocWriter.write_timestamp ⟨0, 0, 0, 0, 0, 0, 7⟩ ++ []) =
      some (⟨0, 0, 0, 0, 0, 0, 7⟩, []) ∧
    (∃ tm, LibRs.copy_timestamp c7Bytes = some (tm, [], c7OutBytes)) ∧
    c7OutBytes ≠ c7Bytes :=
  c7_timestamp_verbatim ⟨0, 0, 0, 0, 0, 0, 7⟩ [] (by decide)

/-!
The JSON projection (src/toc_header.rs, src/toc_entry.rs).  Rust `String`
values are modelled by their UTF-8 byte vectors (`List Nat`);
`String::from_utf8` checks validity and preserves the bytes, `into_bytes`
is the identity.  The serde marshalling of the JSON document itself is
external to the core (spec §1) and is not modelled; the timestamp's
`"%Y-%m-%d %H:%M:%S"` text form is modelled by the `NaiveDateTime` value
it denotes, since formatting then parsing with that pattern is the
identity on the values `to_naive_date_time` can produce.
-/

/-- RFC 3629 UTF-8 validity of a byte sequence (what `String::from_utf8`
accepts). -/
def utf8Valid : List Nat → Bool
  | [] => true
  | b0 :: r0 =>
    if b0 ≤ 0x7F then utf8Valid r0
    else if 0xC2 ≤ b0 ∧ b0 ≤ 0xDF then
      match r0 with
      | b1 :: r1 => (0x80 ≤ b1 && b1 ≤ 0xBF) && utf8Valid r1
      | _ => false
    else if b0 = 0xE0 then
      match r0 with
      | b1 :: b2 :: r2 =>
          (0xA0 ≤ b1 && b1 ≤ 0xBF) && (0x80 ≤ b2 && b2 ≤ 0xBF) && utf8Valid r2
      | _ => false
    else if (0xE1 ≤ b0 ∧ b0 ≤ 0xEC) ∨ b0 = 0xEE ∨ b0 = 0xEF then
      match r0 with
      | b1 :: b2 :: r2 =>
          (0x80 ≤ b1 && b1 ≤ 0xBF) && (0x80 ≤ b2 && b2 ≤ 0xBF) && utf8Valid r2
      | _ => false
    else if b0 = 0xED then
      match r0 with
      | b1 :: b2 :: r2 =>
          (0x80 ≤ b1 && b1 ≤ 0x9F) && (0x80 ≤ b2 && b2 ≤ 0xBF) && utf8Valid r2
      | _ => false
    else if b0 = 0xF0 then
      match r0 with
      | b1 :: b2 :: b3 :: r3 =>
          (0x90 ≤ b1 && b1 ≤ 0xBF) && (0x80 ≤ b2 && b2 ≤ 0xBF) &&
            (0x80 ≤ b3 && b3 ≤ 0xBF) && utf8Valid r3
      | _ => false
    else if 0xF1 ≤ b0 ∧ b0 ≤ 0xF3 then
      match r0 with
      | b1 :: b2 :: b3 :: r3 =>
          (0x80 ≤ b1 && b1 ≤ 0xBF) && (0x80 ≤ b2 && b2 ≤ 0xBF) &&
            (0x80 ≤ b3 && b3 ≤ 0xBF) && utf8Valid r3
      | _ => false
    else if b0 = 0xF4 then
      match r0 with
      | b1 :: b2 :: b3 :: r3 =>
          (0x80 ≤ b1 && b1 ≤ 0x8F) && (0x80 ≤ b2 && b2 ≤ 0xBF) &&
            (0x80 ≤ b3 && b3 ≤ 0xBF) && utf8Valid r3
      | _ => false
    else false

/-- `TocString::to_string_opt` (src/toc_string.rs): UTF-8 check, bytes
preserved; an absent string maps to `None`. -/
def TocString.to_string_opt (ts : TocString) : Except String (Option (List Nat)) :=
  match ts.opt with
  | some bin => if utf8Valid bin then .ok (some bin) else .error "FromUtf8Error"
  | Option.none => .ok Option.none

/-- `TocString::from_string_opt` (src/toc_string.rs): `into_bytes` on the
byte-vector model is the identity. -/
def TocString.from_string_opt (o : Option (List Nat)) : TocString := ⟨o⟩

/-- One lowercase hex digit. -/
def hexDigitChar (n : Nat) : Char :=
  if n = 0 then '0' else if n = 1 then '1' else if n = 2 then '2'
  else if n = 3 then '3' else if n = 4 then '4' else if n = 5 then '5'
  else if n = 6 then '6' else if n = 7 then '7' else if n = 8 then '8'
  else if n = 9 then '9' else if n = 10 then 'a' else if n = 11 then 'b'
  else if n = 12 then 'c' else if n = 13 then 'd' else if n = 14 then 'e'
  else 'f'

/-- `format!("{:02x}", byte)` for octet values. -/
def hexByte (b : Nat) : List Char :=
  [hexDigitChar (b / 16), hexDigitChar (b % 16)]

def hexVal (c : Char) : Option Nat :=
  if '0' ≤ c ∧ c ≤ '9' then some (c.toNat - 48)
  else if 'a' ≤ c ∧ c ≤ 'f' then some (c.toNat - 87)
  else if 'A' ≤ c ∧ c ≤ 'F' then some (c.toNat - 55)
  else Option.none

def hexParseAux : Nat → List Char → Option Nat
  | acc, [] => some acc
  | acc, c :: cs =>
      match hexVal c with
      | some v => hexParseAux (acc * 16 + v) cs
      | Option.none => Option.none

/-- `u8::from_str_radix(hex, 16).unwrap_or(0)`. -/
def hexParse (cs : List Char) : Nat := (hexParseAux 0 cs).getD 0

/-- `TocHeaderJson` (src/toc_header.rs). -/
structure TocHeaderJson where
  magic : List (List Char)
  version : List (List Char)
  flags : List (List Char)
  compression : Int
  timestamp : Chrono.NaiveDateTime
  is_dst : Bool
  postgres_dbname : Option (List Nat)
  version_server : Option (List Nat)
  version_pgdump : Option (List Nat)
  toc_count : Int
deriving Repr, DecidableEq

/-- `TocHeader::to_json` (src/toc_header.rs). -/
def TocHeader.to_json (h : TocHeader) : Except String TocHeaderJson :=
  match h.timestamp.to_naive_date_time with
  | .error e => .error e
  | .ok (ndt, is_dst) =>
      match h.postgres_dbname.to_string_opt with
      | .error e => .error e
      | .ok pg =>
          match h.version_server.to_string_opt with
          | .error e => .error e
          | .ok vs =>
              match h.version_pgdump.to_string_opt with
              | .error e => .error e
              | .ok vp =>
                  .ok ⟨h.magic.map hexByte, h.version.map hexByte,
                       h.flags.map hexByte, h.compression, ndt, is_dst,
                       pg, vs, vp, h.toc_count⟩

/-- `TocHeader::from_json` (src/toc_header.rs).  The only fallible step in
the source is parsing the timestamp text, which the structural timestamp
model makes total. -/
def TocHeader.from_json (j : TocHeaderJson) : TocHeader :=
  ⟨j.magic.map hexParse, j.version.map hexParse, j.flags.map hexParse,
   j.compression, TocDateTime.from_naive_date_time j.timestamp j.is_dst,
   TocString.from_string_opt j.postgres_dbname,
   TocString.from_string_opt j.version_server,
   TocString.from_string_opt j.version_pgdump, j.toc_count⟩

/-- `TocEntryJson` (src/toc_entry.rs).  A `deps` element may be `null`. -/
structure TocEntryJson where
  dump_id : Int
  had_dumper : Int
  table_oid : Option (List Nat)
  catalog_oid : Option (List Nat)
  tag : Option (List Nat)
  description : Option (List Nat)
  section_ : Int
  create_stmt : Option (List Nat)
  drop_stmt : Option (List Nat)
  copy_stmt : Option (List Nat)
  namespace_ : Option (List Nat)
  tablespace : Option (List Nat)
  tableam : Option (List Nat)
  owner : Option (List Nat)
  table_with_oids : Option (List Nat)
  deps : List (Option (List Nat))
  filename : Option (List Nat)
deriving Repr, DecidableEq

/-- Lift `to_string_opt` over the dependency list (the `for` loop in
`TocEntry::to_json`). -/
def depsToJson : List TocString → Except String (List (Option (List Nat)))
  | [] => .ok []
  | d :: ds =>
      match d.to_string_opt with
      | .error e => .error e
      | .ok o =>
          match depsToJson ds with
          | .error e => .error e
          | .ok os => .ok (o :: os)

/-- `TocEntry::to_json` (src/toc_entry.rs). -/
def TocEntry.to_json (e : TocEntry) : Except String TocEntryJson :=
  match depsToJson e.deps with
  | .error err => .error err
  | .ok deps =>
    match e.table_oid.to_string_opt with
    | .error err => .error err
    | .ok table_oid =>
      match e.catalog_oid.to_string_opt with
      | .error err => .error err
      | .ok catalog_oid =>
        match e.tag.to_string_opt with
        | .error err => .error err
        | .ok tag =>
          match e.description.to_string_opt with
          | .error err => .error err
          | .ok description =>
            match e.create_stmt.to_string_opt with
            | .error err => .error err
            | .ok create_stmt =>
              match e.drop_stmt.to_string_opt with
              | .error err => .error err
              | .ok drop_stmt =>
                match e.copy_stmt.to_string_opt with
                | .error err => .error err
                | .ok copy_stmt =>
                  match e.namespace_.to_string_opt with
                  | .error err => .error err
                  | .ok namespace_ =>
                    match e.tablespace.to_string_opt with
                    | .error err => .error err
                    | .ok tablespace =>
                      match e.tableam.to_string_opt with
                      | .error err => .error err
                      | .ok tableam =>
                        match e.owner.to_string_opt with
                        | .error err => .error err
                        | .ok owner =>
                          match e.table_with_oids.to_string_opt with
                          | .error err => .error err
                          | .ok table_with_oids =>
                            match e.filename.to_string_opt with
                            | .error err => .error err
                            | .ok filename =>
                              .ok ⟨e.dump_id, e.had_dumper, table_oid,
                                   catalog_oid, tag, description, e.section_,
                                   create_stmt, drop_stmt, copy_stmt,
                                   namespace_, tablespace, tableam, owner,
                                   table_with_oids, deps, filename⟩

/-- `TocEntry::from_json` (src/toc_entry.rs); infallible. -/
def TocEntry.from_json (j : TocEntryJson) : TocEntry :=
  ⟨j.dump_id, j.had_dumper,
   TocString.from_string_opt j.table_oid,
   TocString.from_string_opt j.catalog_oid,
   TocString.from_string_opt j.tag,
   TocString.from_string_opt j.description, j.section_,
   TocString.from_string_opt j.create_stmt,
   TocString.from_string_opt j.drop_stmt,
   TocString.from_string_opt j.copy_stmt,
   TocString.from_string_opt j.namespace_,
   TocString.from_string_opt j.tablespace,
   TocString.from_string_opt j.tableam,
   TocString.from_string_opt j.owner,
   TocString.from_string_opt j.table_with_oids,
   j.deps.map TocString.from_string_opt,
   TocString.from_string_opt j.filename⟩

/-- The entry list projected to JSON, in order. -/
def toJsonEntries : List TocEntry → Except String (List TocEntryJson)
  | [] => .ok []
  | e :: es =>
      match e.to_json with
      | .error err => .error err
      | .ok j =>
          match toJsonEntries es with
          | .error err => .error err
          | .ok js => .ok (j :: js)

/-- The full read → JSON → parse → write pipeline of the claim: parse the
TOC binary, project header and entries to JSON, parse that JSON back and
write a new binary. -/
def jsonPipeline (s : List Nat) : Option (List Nat) :=
  match TocReader.read_header s with
  | Option.none => Option.none
  | some (h, r1) =>
    match TocReader.readEntries h.toc_count.toNat r1 with
    | Option.none => Option.none
    | some (es, r2) =>
      match h.to_json with
      | .error _ => Option.none
      | .ok hj =>
        match toJsonEntries es with
        | .error _ => Option.none
        | .ok ejs =>
          some (TocWriter.write_header (TocHeader.from_json hj) ++
                TocWriter.writeEntries (ejs.map TocEntry.from_json) ++ r2)

theorem to_from_string_opt {ts : TocString} {o : Option (List Nat)}
    (h : ts.to_string_opt = .ok o) : TocString.from_string_opt o = ts := by
  obtain ⟨ob⟩ := ts
  rw [TocString.to_string_opt] at h
  cases ob with
  | none =>
    simp only [Except.ok.injEq] at h
    rw [← h]
    rfl
  | some bin =>
    dsimp only at h
    split_ifs at h
    simp only [Except.ok.injEq] at h
    rw [← h]
    rfl

set_option maxRecDepth 8192 in
theorem hexParse_hexByte : ∀ b, b < 256 → hexParse (hexByte b) = b := by
  decide

theorem hexParse_map {l : List Nat} (h : ∀ b ∈ l, b < 256) :
    (l.map hexByte).map hexParse = l := by
  induction l with
  | nil => rfl
  | cons b bs ih =>
    simp only [List.map_cons, List.cons.injEq]
    exact ⟨hexParse_hexByte b (h b (List.mem_cons_self b bs)),
           ih fun x hx => h x (List.mem_cons_of_mem b hx)⟩

theorem TocHeader.header_from_to_json {h : TocHeader} {j : TocHeaderJson}
    (hj : h.to_json = .ok j)
    (hdst : h.timestamp.is_dst = 0 ∨ h.timestamp.is_dst = 1)
    (hb1 : ∀ b ∈ h.magic, b < 256) (hb2 : ∀ b ∈ h.version, b < 256)
    (hb3 : ∀ b ∈ h.flags, b < 256) :
    TocHeader.from_json j = h := by
  rw [TocHeader.to_json] at hj
  cases hnd : h.timestamp.to_naive_date_time with
  | error e => rw [hnd] at hj; exact absurd hj (by simp)
  | ok p =>
    obtain ⟨ndt, dstb⟩ := p
    rw [hnd] at hj
    dsimp only at hj
    cases hpg : h.postgres_dbname.to_string_opt with
    | error e => rw [hpg] at hj; exact absurd hj (by simp)
    | ok pg =>
      rw [hpg] at hj
      dsimp only at hj
      cases hvs : h.version_server.to_string_opt with
      | error e => rw [hvs] at hj; exact absurd hj (by simp)
      | ok vs =>
        rw [hvs] at hj
        dsimp only at hj
        cases hvp : h.version_pgdump.to_string_opt with
        | error e => rw [hvp] at hj; exact absurd hj (by simp)
        | ok vp =>
          rw [hvp] at hj
          dsimp only at hj
          simp only [Except.ok.injEq] at hj
          subst hj
          -- dissect the successful civil-date conversion
          rw [TocDateTime.to_naive_date_time] at hnd
          cases hd : Chrono.from_ymd_opt (h.timestamp.year + 1900)
              h.timestamp.month h.timestamp.day with
          | none => rw [hd] at hnd; exact absurd hnd (by simp)
          | some date =>
            rw [hd] at hnd
            dsimp only at hnd
            cases ht : Chrono.from_hms_opt h.timestamp.hour h.timestamp.minute
                h.timestamp.second with
            | none => rw [ht] at hnd; exact absurd hnd (by simp)
            | some time =>
              rw [ht] at hnd
              dsimp only at hnd
              simp only [Except.ok.injEq, Prod.mk.injEq] at hnd
              obtain ⟨hndt, hdstb⟩ := hnd
              rw [Chrono.from_ymd_opt] at hd
              split_ifs at hd
              simp only [Option.some.injEq] at hd
              rw [Chrono.from_hms_opt] at ht
              split_ifs at ht
              simp only [Option.some.injEq] at ht
              rw [TocHeader.from_json]
              dsimp only
              rw [hexParse_map hb1, hexParse_map hb2, hexParse_map hb3]
              rw [TocDateTime.from_naive_date_time, ← hndt, ← hd, ← ht]
              dsimp only
              have hyear : h.timestamp.year + 1900 - 1900 = h.timestamp.year := by omega
              rw [hyear]
              have hdst2 : (if dstb then (1 : Int) else 0) = h.timestamp.is_dst := by
                rw [← hdstb]
                rcases hdst with h0 | h1
                · rw [h0]; simp
                · rw [h1]; simp
              rw [hdst2]
              rw [to_from_string_opt hpg, to_from_string_opt hvs, to_from_string_opt hvp]

theorem depsFromTo {ds : List TocString} {os : List (Option (List Nat))}
    (h : depsToJson ds = .ok os) : os.map TocString.from_string_opt = ds := by
  induction ds generalizing os with
  | nil =>
    rw [depsToJson] at h
    simp only [Except.ok.injEq] at h
    rw [← h]
    rfl
  | cons d ds ih =>
    rw [depsToJson] at h
    cases hd : d.to_string_opt with
    | error e => rw [hd] at h; exact absurd h (by simp)
    | ok o =>
      rw [hd] at h
      dsimp only at h
      cases hds : depsToJson ds with
      | error e => rw [hds] at h; exact absurd h (by simp)
      | ok os1 =>
        rw [hds] at h
        dsimp only at h
        simp only [Except.ok.injEq] at h
        rw [← h]
        simp only [List.map_cons, List.cons.injEq]
        exact ⟨to_from_string_opt hd, ih hds⟩

theorem TocEntry.entry_from_to_json {e : TocEntry} {j : TocEntryJson}
    (hj : e.to_json = .ok j) : TocEntry.from_json j = e := by
  rw [TocEntry.to_json] at hj
  cases hdeps : depsToJson e.deps with
  | error err => rw [hdeps] at hj; exact absurd hj (by simp)
  | ok deps =>
  rw [hdeps] at hj
  dsimp only at hj
  cases h_table_oid : e.table_oid.to_string_opt with
  | error err => rw [h_table_oid] at hj; exact absurd hj (by simp)
  | ok table_oid =>
  rw [h_table_oid] at hj
  dsimp only at hj
  cases h_catalog_oid : e.catalog_oid.to_string_opt with
  | error err => rw [h_catalog_oid] at hj; exact absurd hj (by simp)
  | ok catalog_oid =>
  rw [h_catalog_oid] at hj
  dsimp only at hj
  cases h_tag : e.tag.to_string_opt with
  | error err => rw [h_tag] at hj; exact absurd hj (by simp)
  | ok tag =>
  rw [h_tag] at hj
  dsimp only at hj
  cases h_description : e.description.to_string_opt with
  | error err => rw [h_description] at hj; exact absurd hj (by simp)
  | ok description =>
  rw [h_description] at hj
  dsimp only at hj
  cases h_create_stmt : e.create_stmt.to_string_opt with
  | error err => rw [h_create_stmt] at hj; exact absurd hj (by simp)
  | ok create_stmt =>
  rw [h_create_stmt] at hj
  dsimp only at hj
  cases h_drop_stmt : e.drop_stmt.to_string_opt with
  | error err => rw [h_drop_stmt] at hj; exact absurd hj (by simp)
  | ok drop_stmt =>
  rw [h_drop_stmt] at hj
  dsimp only at hj
  cases h_copy_stmt : e.copy_stmt.to_string_opt with
  | error err => rw [h_copy_stmt] at hj; exact absurd hj (by simp)
  | ok copy_stmt =>
  rw [h_copy_stmt] at hj
  dsimp only at hj
  cases h_namespace_ : e.namespace_.to_string_opt with
  | error err => rw [h_namespace_] at hj; exact absurd hj (by simp)
  | ok namespace_ =>
  rw [h_namespace_] at hj
  dsimp only at hj
  cases h_tablespace : e.tablespace.to_string_opt with
  | error err => rw [h_tablespace] at hj; exact absurd hj (by simp)
  | ok tablespace =>
  rw [h_tablespace] at hj
  dsimp only at hj
  cases h_tableam : e.tableam.to_string_opt with
  | error err => rw [h_tableam] at hj; exact absurd hj (by simp)
  | ok tableam =>
  rw [h_tableam] at hj
  dsimp only at hj
  cases h_owner : e.owner.to_string_opt with
  | error err => rw [h_owner] at hj; exact absurd hj (by simp)
  | ok owner =>
  rw [h_owner] at hj
  dsimp only at hj
  cases h_table_with_oids : e.table_with_oids.to_string_opt with
  | error err => rw [h_table_with_oids] at hj; exact absurd hj (by simp)
  | ok table_with_oids =>
  rw [h_table_with_oids] at hj
  dsimp only at hj
  cases h_filename : e.filename.to_string_opt with
  | error err => rw [h_filename] at hj; exact absurd hj (by simp)
  | ok filename =>
  rw [h_filename] at hj
  dsimp only at hj
  simp only [Except.ok.injEq] at hj
  subst hj
  rw [TocEntry.from_json]
  dsimp only
  rw [to_from_string_opt h_table_oid, to_from_string_opt h_catalog_oid, to_from_string_opt h_tag, to_from_string_opt h_description, to_from_string_opt h_create_stmt, to_from_string_opt h_drop_stmt, to_from_string_opt h_copy_stmt, to_from_string_opt h_namespace_, to_from_string_opt h_tablespace, to_from_string_opt h_tableam, to_from_string_opt h_owner, to_from_string_opt h_table_with_oids, to_from_string_opt h_filename, depsFromTo hdeps]

theorem entriesFromTo {es : List TocEntry} {ejs : List TocEntryJson}
    (h : toJsonEntries es = .ok ejs) : ejs.map TocEntry.from_json = es := by
  induction es generalizing ejs with
  | nil =>
    rw [toJsonEntries] at h
    simp only [Except.ok.injEq] at h
    rw [← h]
    rfl
  | cons e es ih =>
    rw [toJsonEntries] at h
    cases he : e.to_json with
    | error err => rw [he] at h; exact absurd h (by simp)
    | ok j =>
      rw [he] at h
      dsimp only at h
      cases hes : toJsonEntries es with
      | error err => rw [hes] at h; exact absurd h (by simp)
      | ok js =>
        rw [hes] at h
        dsimp only at h
        simp only [Except.ok.injEq] at h
        rw [← h]
        simp only [List.map_cons, List.cons.injEq]
        exact ⟨TocEntry.entry_from_to_json he, ih hes⟩

/-- A canonically encoded `toc.dat` whose string fields are all absent
(vacuously valid UTF-8) but whose timestamp has month `0` and day `0`. -/
def c4CounterBytes : List Nat :=
  [80, 71, 68, 77, 80, 1, 14, 0, 4, 8, 3, 0, 0, 0, 0, 0, 0, 0, 0, 0, 0, 0, 0, 0, 0, 0, 0, 0, 0, 0, 0, 0, 0, 0, 0, 0, 0, 0, 0, 0, 0, 0, 0, 0, 0, 0, 0, 0, 0, 0, 0, 1, 1, 0, 0, 0, 1, 1, 0, 0, 0, 1, 1, 0, 0, 0, 0, 0, 0, 0, 0]

/-- The header parsed from `c4CounterBytes`. -/
def c4CounterHeader : TocHeader :=
  ⟨[80, 71, 68, 77, 80], [1, 14, 0], [4, 8, 3], 0, ⟨0, 0, 0, 0, 0, 0, 0⟩,
   TocString.none, TocString.none, TocString.none, 0⟩

/-- **C4** (counterexample): a valid `toc.dat` all of whose string fields
are valid UTF-8 (they are absent) on which the read → JSON → parse → write
pipeline yields no file at all: the all-zero timestamp (month `0`) makes
the JSON export fail with `Invalid date`, so no byte-identical output is
produced. -/
theorem c4_counterexample :
    TocReader.read_header c4CounterBytes = some (c4CounterHeader, []) ∧
    c4CounterHeader.postgres_dbname.to_string_opt = .ok Option.none ∧
    c4CounterHeader.to_json = .error "Invalid date" ∧
    jsonPipeline c4CounterBytes = Option.none := by
  exact ⟨by decide, rfl, rfl, rfl⟩

/-- **C4** (amended): for every valid `toc.dat` octet stream with
canonically encoded integer fields whose string fields are all valid UTF-8
(expressed by the JSON projections succeeding) and whose timestamp is a
valid civil date-time with DST flag `0` or `1`, the pipeline read → JSON →
parse JSON → write yields a byte stream identical to the input. -/
theorem c4_json_roundtrip {s : List Nat} {h : TocHeader} {r1 r2 : List Nat}
    {es : List TocEntry} {hj : TocHeaderJson} {ejs : List TocEntryJson}
    (hh : Canon.readCkHeader s = some (h, r1))
    (he : Canon.readCkEntries h.toc_count.toNat r1 = some (es, r2))
    (hjson : h.to_json = .ok hj)
    (hdst : h.timestamp.is_dst = 0 ∨ h.timestamp.is_dst = 1)
    (hjes : toJsonEntries es = .ok ejs) :
    jsonPipeline s = some s := by
  obtain ⟨hr, hw, hb1, hb2, hb3⟩ := Canon.readCkHeader_spec hh
  obtain ⟨her, hew⟩ := Canon.readCkEntries_spec _ he
  rw [jsonPipeline, hr]
  dsimp only
  rw [her]
  dsimp only
  rw [hjson]
  dsimp only
  rw [hjes]
  dsimp only
  rw [TocHeader.header_from_to_json hjson hdst hb1 hb2 hb3, entriesFromTo hjes]
  simp only [List.append_assoc]
  rw [hew, hw]

/-- A canonically encoded `toc.dat` with the valid timestamp
2000-01-01 00:00:00, DST flag 0, absent strings and zero entries. -/
def c4WitBytes : List Nat :=
  [80, 71, 68, 77, 80, 1, 14, 0, 4, 8, 3, 0, 0, 0, 0, 0, 0, 0, 0, 0, 0, 0, 0, 0, 0, 0, 0, 0, 0, 0, 0, 0, 1, 0, 0, 0, 0, 1, 0, 0, 0, 0, 100, 0, 0, 0, 0, 0, 0, 0, 0, 1, 1, 0, 0, 0, 1, 1, 0, 0, 0, 1, 1, 0, 0, 0, 0, 0, 0, 0, 0]

/-- The header parsed from `c4WitBytes`. -/
def c4WitHeader : TocHeader :=
  ⟨[80, 71, 68, 77, 80], [1, 14, 0], [4, 8, 3], 0, ⟨0, 0, 0, 1, 1, 100, 0⟩,
   TocString.none, TocString.none, TocString.none, 0⟩

/-- The JSON projection of `c4WitHeader`. -/
def c4WitJson : TocHeaderJson :=
  ⟨[['5', '0'], ['4', '7'], ['4', '4'], ['4', 'd'], ['5', '0']],
   [['0', '1'], ['0', 'e'], ['0', '0']],
   [['0', '4'], ['0', '8'], ['0', '3']],
   0, ⟨⟨2000, 1, 1⟩, ⟨0, 0, 0⟩⟩, false,
   Option.none, Option.none, Option.none, 0⟩

/-- Witness for C4: the amended JSON round trip evaluated on a concrete
stream. -/
theorem c4_json_roundtrip_witness : jsonPipeline c4WitBytes = some c4WitBytes :=
  @c4_json_roundtrip c4WitBytes c4WitHeader [] [] [] c4WitJson []
    (by decide) (by decide) rfl (Or.inl (by decide)) rfl

/-- The byte blob of a present string fits an `i32` length prefix. -/
def TocString.wfLen (ts : TocString) : Bool :=
  match ts.opt with
  | some bs => bs.length < 2147483648
  | Option.none => true

/-- Well-formed entry: integer fields in `i32` range and every string
field short enough for its `i32` length prefix (what the Rust types
guarantee). -/
def TocEntry.wf (e : TocEntry) : Prop :=
  -2147483648 ≤ e.dump_id ∧ e.dump_id < 2147483648 ∧
  -2147483648 ≤ e.had_dumper ∧ e.had_dumper < 2147483648 ∧
  -2147483648 ≤ e.section_ ∧ e.section_ < 2147483648 ∧
  e.table_oid.wfLen = true ∧ e.catalog_oid.wfLen = true ∧
  e.tag.wfLen = true ∧ e.description.wfLen = true ∧
  e.create_stmt.wfLen = true ∧ e.drop_stmt.wfLen = true ∧
  e.copy_stmt.wfLen = true ∧ e.namespace_.wfLen = true ∧
  e.tablespace.wfLen = true ∧ e.tableam.wfLen = true ∧
  e.owner.wfLen = true ∧ e.table_with_oids.wfLen = true ∧
  (∀ d ∈ e.deps, d.wfLen = true) ∧ e.filename.wfLen = true

instance (e : TocEntry) : Decidable e.wf := by
  unfold TocEntry.wf
  infer_instance

/-- Writing any well-formed string then reading it back returns it
unchanged (all three states round-trip distinctly). -/
theorem read_write_string (ts : TocString) (r : List Nat)
    (hwf : ts.wfLen = true) :
    TocReader.read_string (TocWriter.write_string ts ++ r) = some (ts, r) := by
  obtain ⟨o⟩ := ts
  cases o with
  | none =>
    rw [TocWriter.write_string]
    dsimp only
    rw [TocReader.read_string, read_write_int (-1) r (by omega) (by omega)]
    dsimp only
    rw [if_pos (by omega : (-1 : Int) < 0)]
    rfl
  | some bs =>
    have hlen : ((bs.length : Nat) : Int) < 2147483648 := by
      simp only [TocString.wfLen, decide_eq_true_eq] at hwf
      exact_mod_cast hwf
    rw [TocWriter.write_string]
    dsimp only
    rw [TocReader.read_string, List.append_assoc,
      read_write_int (bs.length : Int) (bs ++ r) (by omega) hlen]
    dsimp only
    by_cases hb : bs = []
    · subst hb
      simp
      rfl
    · have hpos : 0 < bs.length := List.length_pos.mpr hb
      rw [if_neg (by omega), if_neg (by omega : ¬ ((bs.length : Int) = 0))]
      rw [if_neg (by simp only [List.length_append, Int.toNat_natCast]; omega)]
      simp only [Int.toNat_natCast, List.take_left, List.drop_left]
      rfl

/-- Every written string occupies at least its five length bytes. -/
theorem write_string_len_pos (ts : TocString) :
    1 ≤ (TocWriter.write_string ts).length := by
  obtain ⟨o⟩ := ts
  cases o <;> simp [TocWriter.write_string, write_int]

/-- A dependency list is no longer than its written byte form. -/
theorem deps_len_le_flatten (ds : List TocString) :
    ds.length ≤ ((ds.map TocWriter.write_string).flatten).length := by
  induction ds with
  | nil => simp
  | cons d ds ih =>
    simp only [List.map_cons, List.flatten_cons, List.length_cons,
      List.length_append]
    have := write_string_len_pos d
    omega

/-- Reading the dependency region that the writer emitted: the present
dependencies followed by the absent-string sentinel. -/
theorem readDeps_write : ∀ (ds : List TocString) (rest : List Nat) (fuel : Nat),
    (∀ d ∈ ds, d.opt ≠ Option.none) → (∀ d ∈ ds, d.wfLen = true) →
    ds.length < fuel →
    TocReader.readDeps fuel ((ds.map TocWriter.write_string).flatten ++
      (TocWriter.write_string TocString.none ++ rest)) = some (ds, rest) := by
  intro ds
  induction ds with
  | nil =>
    intro rest fuel _ _ hfuel
    obtain ⟨f, rfl⟩ : ∃ f, fuel = f + 1 := ⟨fuel - 1, by omega⟩
    simp only [List.map_nil, List.flatten_nil, List.nil_append]
    rw [TocReader.readDeps, read_write_string TocString.none rest rfl]
    rfl
  | cons d ds ih =>
    intro rest fuel hpres hwf hfuel
    obtain ⟨f, rfl⟩ : ∃ f, fuel = f + 1 := ⟨fuel - 1, by omega⟩
    simp only [List.map_cons, List.flatten_cons, List.append_assoc]
    rw [TocReader.readDeps,
      read_write_string d _ (hwf d (List.mem_cons_self d ds))]
    dsimp only
    obtain ⟨bs, hbs⟩ : ∃ bs, d.opt = some bs := by
      cases hdo : d.opt with
      | none => exact absurd hdo (hpres d (List.mem_cons_self d ds))
      | some bs => exact ⟨bs, rfl⟩
    rw [hbs]
    dsimp only
    rw [ih rest f (fun x hx => hpres x (List.mem_cons_of_mem d hx))
      (fun x hx => hwf x (List.mem_cons_of_mem d hx)) (by simp at hfuel; omega)]

/-- Reading back a written entry, for an arbitrary behaviour of the
dependency region: whatever `readDeps` and the subsequent string read
produce on the emitted deps-sentinel-filename bytes becomes the entry's
`deps` and `filename`. -/
theorem read_write_entry_general (e : TocEntry) (r : List Nat) (hwf : e.wf)
    (D : List TocString) (F : TocString) (Y Z : List Nat)
    (hdeps : TocReader.readDeps
        (((e.deps.map TocWriter.write_string).flatten ++
          (TocWriter.write_string TocString.none ++
            (TocWriter.write_string e.filename ++ r))).length + 1)
        ((e.deps.map TocWriter.write_string).flatten ++
          (TocWriter.write_string TocString.none ++
            (TocWriter.write_string e.filename ++ r))) = some (D, Y))
    (hfn : TocReader.read_string Y = some (F, Z)) :
    TocReader.read_entry (TocWriter.write_toc_entry e ++ r) =
      some (⟨e.dump_id, e.had_dumper, e.table_oid, e.catalog_oid, e.tag,
             e.description, e.section_, e.create_stmt, e.drop_stmt,
             e.copy_stmt, e.namespace_, e.tablespace, e.tableam, e.owner,
             e.table_with_oids, D, F⟩, Z) := by
  obtain ⟨h1, h2, h3, h4, h5, h6, hw1, hw2, hw3, hw4, hw5, hw6, hw7, hw8,
    hw9, hw10, hw11, hw12, hwd, hwfn⟩ := hwf
  rw [TocWriter.write_toc_entry]
  simp only [List.append_assoc]
  rw [TocReader.read_entry]
  rw [read_write_int e.dump_id _ h1 h2]
  dsimp only
  rw [read_write_int e.had_dumper _ h3 h4]
  dsimp only
  rw [read_write_string e.table_oid _ hw1]
  dsimp only
  rw [read_write_string e.catalog_oid _ hw2]
  dsimp only
  rw [read_write_string e.tag _ hw3]
  dsimp only
  rw [read_write_string e.description _ hw4]
  dsimp only
  rw [read_write_int e.section_ _ h5 h6]
  dsimp only
  rw [read_write_string e.create_stmt _ hw5]
  dsimp only
  rw [read_write_string e.drop_stmt _ hw6]
  dsimp only
  rw [read_write_string e.copy_stmt _ hw7]
  dsimp only
  rw [read_write_string e.namespace_ _ hw8]
  dsimp only
  rw [read_write_string e.tablespace _ hw9]
  dsimp only
  rw [read_write_string e.tableam _ hw10]
  dsimp only
  rw [read_write_string e.owner _ hw11]
  dsimp only
  rw [read_write_string e.table_with_oids _ hw12]
  dsimp only
  rw [hdeps]
  dsimp only
  rw [hfn]

/-- **C10**: for an entry all of whose `deps` elements are present
strings, `write_toc_entry` followed by `read_entry` returns the identical
entry; but when some `deps` element is the absent string — which the JSON
projection permits, since `TocEntry::from_json` turns a `null` array
element into the absent string — the writer emits that element as the
end-of-list sentinel, so re-reading truncates `deps` before it and the
round trip fails. -/
theorem c10_deps_sentinel (e : TocEntry) (r : List Nat) (hwf : e.wf) :
    ((∀ d ∈ e.deps, d.opt ≠ Option.none) →
      TocReader.read_entry (TocWriter.write_toc_entry e ++ r) = some (e, r)) ∧
    (∀ P Q, e.deps = P ++ TocString.none :: Q →
      (∀ d ∈ P, d.opt ≠ Option.none) →
      ∃ e2 r2, TocReader.read_entry (TocWriter.write_toc_entry e ++ r) =
          some (e2, r2) ∧ e2.deps = P ∧ e2 ≠ e) ∧
    (∀ j : TocEntryJson,
      (TocEntry.from_json j).deps = j.deps.map TocString.from_string_opt) := by
  have hwf' := hwf
  obtain ⟨h1, h2, h3, h4, h5, h6, hw1, hw2, hw3, hw4, hw5, hw6, hw7, hw8,
    hw9, hw10, hw11, hw12, hwd, hwfn⟩ := hwf'
  refine ⟨?_, ?_, fun j => rfl⟩
  · intro hpres
    have hbound : e.deps.length <
        ((e.deps.map TocWriter.write_string).flatten ++
          (TocWriter.write_string TocString.none ++
            (TocWriter.write_string e.filename ++ r))).length + 1 := by
      have := deps_len_le_flatten e.deps
      simp only [List.length_append]
      omega
    have hdeps := readDeps_write e.deps
      (TocWriter.write_string e.filename ++ r) _ hpres hwd hbound
    have hfn := read_write_string e.filename r hwfn
    exact read_write_entry_general e r hwf e.deps e.filename _ r hdeps hfn
  · intro P Q hPQ hPpres
    have hPwf : ∀ d ∈ P, d.wfLen = true := by
      intro d hd
      exact hwd d (by rw [hPQ]; exact List.mem_append_left _ hd)
    have hQwf : ∀ d ∈ Q, d.wfLen = true := by
      intro d hd
      exact hwd d (by
        rw [hPQ]
        exact List.mem_append_right _ (List.mem_cons_of_mem _ hd))
    have hsplit : (e.deps.map TocWriter.write_string).flatten =
        (P.map TocWriter.write_string).flatten ++
          (TocWriter.write_string TocString.none ++
            (Q.map TocWriter.write_string).flatten) := by
      rw [hPQ]
      simp [List.map_append, List.flatten_append, List.append_assoc]
    have hbound : P.length <
        ((e.deps.map TocWriter.write_string).flatten ++
          (TocWriter.write_string TocString.none ++
            (TocWriter.write_string e.filename ++ r))).length + 1 := by
      have h1 := deps_len_le_flatten P
      have h2 : ((P.map TocWriter.write_string).flatten).length ≤
          ((e.deps.map TocWriter.write_string).flatten).length := by
        rw [hsplit]
        simp only [List.length_append]
        omega
      simp only [List.length_append]
      omega
    have hdeps : TocReader.readDeps
        (((e.deps.map TocWriter.write_string).flatten ++
          (TocWriter.write_string TocString.none ++
            (TocWriter.write_string e.filename ++ r))).length + 1)
        ((e.deps.map TocWriter.write_string).flatten ++
          (TocWriter.write_string TocString.none ++
            (TocWriter.write_string e.filename ++ r))) =
        some (P, (Q.map TocWriter.write_string).flatten ++
          (TocWriter.write_string TocString.none ++
            (TocWriter.write_string e.filename ++ r))) := by
      rw [hsplit]
      simp only [List.append_assoc]
      exact readDeps_write P _ _ hPpres hPwf (by
        have := hbound
        rw [hsplit] at this
        simp only [List.length_append] at this ⊢
        omega)
    obtain ⟨F, Z, hfn⟩ : ∃ F Z, TocReader.read_string
        ((Q.map TocWriter.write_string).flatten ++
          (TocWriter.write_string TocString.none ++
            (TocWriter.write_string e.filename ++ r))) = some (F, Z) := by
      cases Q with
      | nil =>
        simp only [List.map_nil, List.flatten_nil, List.nil_append]
        exact ⟨TocString.none, TocWriter.write_string e.filename ++ r,
          read_write_string TocString.none _ rfl⟩
      | cons q Q2 =>
        simp only [List.map_cons, List.flatten_cons, List.append_assoc]
        exact ⟨q, _, read_write_string q _ (hQwf q (List.mem_cons_self q Q2))⟩
    refine ⟨_, Z, read_write_entry_general e r hwf P F _ Z hdeps hfn, rfl, ?_⟩
    intro heq
    have hd2 := congrArg TocEntry.deps heq
    dsimp only at hd2
    rw [hPQ] at hd2
    have hlen := congrArg List.length hd2
    simp only [List.length_append, List.length_cons] at hlen
    omega

/-- A well-formed entry with one present dependency. -/
def c10Ent : TocEntry :=
  ⟨0, 0, TocString.none, TocString.none, TocString.none, TocString.none, 0,
   TocString.none, TocString.none, TocString.none, TocString.none,
   TocString.none, TocString.none, TocString.none, TocString.none,
   [TocString.new [49]], TocString.none⟩

/-- The same entry with an absent string appended to `deps`. -/
def c10EntBad : TocEntry :=
  ⟨0, 0, TocString.none, TocString.none, TocString.none, TocString.none, 0,
   TocString.none, TocString.none, TocString.none, TocString.none,
   TocString.none, TocString.none, TocString.none, TocString.none,
   [TocString.new [49], TocString.none], TocString.none⟩

/-- Witness for C10: the round trip holds for the all-present entry and
fails (deps truncated) once an absent dependency is present. -/
theorem c10_deps_sentinel_witness :
    TocReader.read_entry (TocWriter.write_toc_entry c10Ent ++ []) =
      some (c10Ent, []) ∧
    (∃ e2 r2, TocReader.read_entry (TocWriter.write_toc_entry c10EntBad ++ []) =
        some (e2, r2) ∧ e2.deps = [TocString.new [49]] ∧ e2 ≠ c10EntBad) :=
  ⟨(c10_deps_sentinel c10Ent [] (by decide)).1 (by decide),
   (c10_deps_sentinel c10EntBad [] (by decide)).2.1 [TocString.new [49]] []
     rfl (by decide)⟩

/-!
The SQL rewriter (src/rewrite_sql.rs).  The tokenizer is an external
collaborator (spec §1): it supplies an ordered list of tokens tagged with
kind and 1-based `(line, column)` start location, quoted tokens flagged.
The rewriter is modelled as a function of that token list.
-/
namespace RewriteSql

/-- The token kinds the rewriter distinguishes (`sqlparser::tokenizer::Token`):
words (with an optional quote style), single-quoted strings, the period,
and everything else (whitespace, punctuation, numbers, …). -/
inductive Token where
  | word (value : String) (quoteStyle : Option Char)
  | singleQuoted (value : String)
  | period
  | other (text : String)
deriving Repr, DecidableEq

/-- `sqlparser::tokenizer::TokenWithLocation`. -/
structure TokenWithLocation where
  token : Token
  line : Nat
  column : Nat
deriving Repr, DecidableEq

/-- `location_to_idx` (src/rewrite_sql.rs lines 27-43): character index of
a token from its 1-based line/column, counting one end-of-line character
per preceding line, shifted past the opening quote for quoted words and
single-quoted strings. -/
def location_to_idx (lines : List String) (twl : TokenWithLocation) : Nat :=
  let base := (((lines.take (twl.line - 1)).map
      (fun l => l.toList.length)).sum) + (twl.line - 1) + (twl.column - 1)
  match twl.token with
  | Token.word _ (some _) => base + 1
  | Token.singleQuoted _ => base + 1
  | _ => base

/-- `HashMap::get` on the schema mapping (keys are unique). -/
def lookupSchema (schemas : List (String × String)) (k : String) : Option String :=
  match schemas.find? (fun p => p.1 == k) with
  | some p => some p.2
  | Option.none => Option.none

/-- The token-selection loop of `rewrite_schema_in_sql_internal`
(src/rewrite_sql.rs lines 57-86): in qualified mode a token is considered
only when a next token exists and is a period; in single-quoted mode a
single-quoted string is matched by its exact literal value, otherwise a
word is matched by its value. -/
def selectToReplace (schemas : List (String × String)) (lines : List String)
    (qualifiedOnly singleQuotedOnly : Bool) :
    List TokenWithLocation → List (String × String × Nat)
  | [] => []
  | t :: rest =>
      let tail := selectToReplace schemas lines qualifiedOnly singleQuotedOnly rest
      let proceed : Bool :=
        if qualifiedOnly then
          match rest with
          | next :: _ =>
              match next.token with
              | Token.period => true
              | _ => false
          | [] => false
        else true
      if proceed then
        if singleQuotedOnly then
          match t.token with
          | Token.singleQuoted st =>
              match lookupSchema schemas st with
              | some schema => (st, schema, location_to_idx lines t) :: tail
              | Option.none => tail
          | _ => tail
        else
          match t.token with
          | Token.word v _ =>
              match lookupSchema schemas v with
              | some schema => (v, schema, location_to_idx lines t) :: tail
              | Option.none => tail
          | _ => tail
      else tail

/-- The replacement loop of `rewrite_schema_in_sql_internal`
(src/rewrite_sql.rs lines 88-109): copy up to each match index, emit the
destination, verify the source characters at the index, skip the matched
length; then copy the tail.  The source error message also embeds the sql
and location. -/
def applyReplacements (orig : List Char) :
    List (String × String × Nat) → Nat → Except String (List Char)
  | [], lastIdx => .ok (orig.drop lastIdx)
  | (so, sr, startIdx) :: rest, lastIdx =>
      let pre := (orig.drop lastIdx).take (startIdx - lastIdx)
      let check : List Char := (orig.drop startIdx).take so.toList.length
      if check ≠ so.toList then .error "Replace error"
      else
        match applyReplacements orig rest (startIdx + so.toList.length) with
        | .error e => .error e
        | .ok out => .ok (pre ++ sr.toList ++ out)

/-- `rewrite_schema_in_sql_internal` (src/rewrite_sql.rs lines 45-113),
with the external tokenizer's output passed in. -/
def rewrite_schema_in_sql_internal (schemas : List (String × String))
    (sql : String) (tokens : List TokenWithLocation)
    (qualifiedOnly singleQuotedOnly : Bool) : Except String String :=
  let lines := sql.splitOn "\n"
  let toReplace := selectToReplace schemas lines qualifiedOnly singleQuotedOnly tokens
  match applyReplacements sql.toList toReplace 0 with
  | .error e => .error e
  | .ok out => .ok (String.mk out)

/-- `rewrite_schema_in_sql` (src/rewrite_sql.rs lines 115-117): qualified
mode. -/
def rewrite_schema_in_sql (schemas : List (String × String)) (sql : String)
    (tokens : List TokenWithLocation) : Except String String :=
  rewrite_schema_in_sql_internal schemas sql tokens true false

/-- `rewrite_schema_in_sql_unqualified` (src/rewrite_sql.rs lines 119-121). -/
def rewrite_schema_in_sql_unqualified (schemas : List (String × String))
    (sql : String) (tokens : List TokenWithLocation) : Except String String :=
  rewrite_schema_in_sql_internal schemas sql tokens false false

/-- `rewrite_schema_in_sql_single_quoted` (src/rewrite_sql.rs lines
123-125): the QualifiedSingleQuoted entry point. -/
def rewrite_schema_in_sql_single_quoted (schemas : List (String × String))
    (sql : String) (tokens : List TokenWithLocation) : Except String String :=
  rewrite_schema_in_sql_internal schemas sql tokens false true

/-- The claim's selection rule for Qualified mode, stated directly: a
token is selected iff it is a word whose value is a key and the
immediately following token is a period. -/
def qualifiedSelectionSpec (schemas : List (String × String))
    (lines : List String) (tokens : List TokenWithLocation) :
    List (String × String × Nat) :=
  (tokens.zip tokens.tail).filterMap (fun p =>
    match p.2.token with
    | Token.period =>
        match p.1.token with
        | Token.word v _ =>
            match lookupSchema schemas v with
            | some d => some (v, d, location_to_idx lines p.1)
            | Option.none => Option.none
        | _ => Option.none
    | _ => Option.none)

end RewriteSql

/-- The token stream of `SELECT test1_dbo;` (word, whitespace, word,
semicolon — no period). -/
def c6Tokens : List RewriteSql.TokenWithLocation :=
  [⟨RewriteSql.Token.word "SELECT" Option.none, 1, 1⟩,
   ⟨RewriteSql.Token.other " ", 1, 7⟩,
   ⟨RewriteSql.Token.word "test1_dbo" Option.none, 1, 8⟩,
   ⟨RewriteSql.Token.other ";", 1, 17⟩]

/-- **C6**: in Qualified mode the selection loop picks exactly the word
tokens whose value is a key of the schema map and whose immediately
following token is a period (the last token is never picked); a bare
`SELECT test1_dbo;` is left unchanged. -/
theorem c6_qualified_selection :
    (∀ schemas lines tokens,
      RewriteSql.selectToReplace schemas lines true false tokens =
        RewriteSql.qualifiedSelectionSpec schemas lines tokens) ∧
    RewriteSql.rewrite_schema_in_sql [("test1_dbo", "foobar_dbo")]
        "SELECT test1_dbo;" c6Tokens = .ok "SELECT test1_dbo;" := by
  constructor
  · intro schemas lines tokens
    induction tokens with
    | nil => rfl
    | cons t rest ih =>
      cases rest with
      | nil => rfl
      | cons n rest2 =>
        have hspec : RewriteSql.qualifiedSelectionSpec schemas lines (t :: n :: rest2) =
            (match n.token with
              | RewriteSql.Token.period =>
                  match t.token with
                  | RewriteSql.Token.word v _ =>
                      match RewriteSql.lookupSchema schemas v with
                      | some d => (v, d, RewriteSql.location_to_idx lines t) ::
                          RewriteSql.qualifiedSelectionSpec schemas lines (n :: rest2)
                      | Option.none =>
                          RewriteSql.qualifiedSelectionSpec schemas lines (n :: rest2)
                  | _ => RewriteSql.qualifiedSelectionSpec schemas lines (n :: rest2)
              | _ => RewriteSql.qualifiedSelectionSpec schemas lines (n :: rest2)) := by
          rw [RewriteSql.qualifiedSelectionSpec, RewriteSql.qualifiedSelectionSpec,
            List.tail_cons, List.tail_cons, List.zip_cons_cons, List.filterMap_cons]
          cases n.token <;> cases t.token <;> dsimp only <;>
            first
              | rfl
              | (rename_i v qs
                 cases RewriteSql.lookupSchema schemas v <;> rfl)
        rw [hspec, RewriteSql.selectToReplace, ih]
        cases hn : n.token <;> cases ht : t.token <;> simp only [hn, ht] <;>
          first
            | rfl
            | (rename_i v qs
               cases hl : RewriteSql.lookupSchema schemas v <;> simp only [hl] <;> rfl)
  · rfl

/-- The S6 input `SELECT pg_catalog.setval('foo1.foobar', 1, true);`. -/
def c5Sql : String := "SELECT pg_catalog.setval('foo1.foobar', 1, true);"

/-- The token stream of `c5Sql` (the single-quoted literal's value is
`foo1.foobar`, without the surrounding quotes). -/
def c5Tokens : List RewriteSql.TokenWithLocation :=
  [⟨RewriteSql.Token.word "SELECT" Option.none, 1, 1⟩,
   ⟨RewriteSql.Token.other " ", 1, 7⟩,
   ⟨RewriteSql.Token.word "pg_catalog" Option.none, 1, 8⟩,
   ⟨RewriteSql.Token.period, 1, 18⟩,
   ⟨RewriteSql.Token.word "setval" Option.none, 1, 19⟩,
   ⟨RewriteSql.Token.other "(", 1, 25⟩,
   ⟨RewriteSql.Token.singleQuoted "foo1.foobar", 1, 26⟩,
   ⟨RewriteSql.Token.other ",", 1, 39⟩,
   ⟨RewriteSql.Token.other " ", 1, 40⟩,
   ⟨RewriteSql.Token.other "1", 1, 41⟩,
   ⟨RewriteSql.Token.other ",", 1, 42⟩,
   ⟨RewriteSql.Token.other " ", 1, 43⟩,
   ⟨RewriteSql.Token.word "true" Option.none, 1, 44⟩,
   ⟨RewriteSql.Token.other ")", 1, 48⟩,
   ⟨RewriteSql.Token.other ";", 1, 49⟩]

/-- **C5**: in the single-quoted mode of src/rewrite_sql.rs, a
single-quoted token is matched only when its *entire* literal value equals
a key of the map (`schemas.get(st.as_str())`), not when it merely starts
with a key followed by a period.  On the S6 scenario with
`{"foo1" → "bar42"}` the literal `foo1.foobar` is therefore not replaced
and the output equals the input, not the claimed
`SELECT pg_catalog.setval('bar42.foobar', 1, true);`. -/
theorem c5_single_quoted_exact_match :
    RewriteSql.rewrite_schema_in_sql_single_quoted [("foo1", "bar42")]
        c5Sql c5Tokens = .ok c5Sql ∧
    c5Sql ≠ "SELECT pg_catalog.setval('bar42.foobar', 1, true);" := by
  exact ⟨rfl, by decide⟩

/-!
The rename orchestrator.  The crate's current lib.rs — the module that
declares `validate_dbname`-style checking, catalog reordering and the
public `rewrite_toc` exercised by tests/rewrite_test.rs — is not among the
provided sources (the lib.rs present is an earlier standalone generation
without these steps), so the parts of the orchestrator the claims C8 and
C9 depend on are modelled from the spec below.
-/
namespace SpecModel

def isSpaceChar (c : Char) : Bool :=
  c = ' ' ∨ c = '\t' ∨ c = '\n' ∨ c = '\r'

/-- Whitespace-trimmed character list (`str::trim`; ASCII whitespace
suffices for the identifiers at hand). -/
def trimChars (cs : List Char) : List Char :=
  ((cs.dropWhile isSpaceChar).reverse.dropWhile isSpaceChar).reverse

def isLowerAlpha (c : Char) : Bool := 'a' ≤ c ∧ c ≤ 'z'

def isDigitChar (c : Char) : Bool := '0' ≤ c ∧ c ≤ '9'

/-- Modelled from the spec: the PostgreSQL reserved-word list of §4.8
(identifier validation); the list itself is not in the provided sources. -/
def reservedWords : List String :=
  ["all", "analyse", "analyze", "and", "any", "array", "as", "asc",
   "asymmetric", "both", "case", "cast", "check", "collate", "column",
   "constraint", "create", "current_catalog", "current_date",
   "current_role", "current_time", "current_timestamp", "current_user",
   "default", "deferrable", "desc", "distinct", "do", "else", "end",
   "except", "false", "fetch", "for", "foreign", "from", "grant", "group",
   "having", "in", "initially", "intersect", "into", "lateral", "leading",
   "limit", "localtime", "localtimestamp", "not", "null", "offset", "on",
   "only", "or", "order", "placing", "primary", "references", "returning",
   "select", "session_user", "some", "symmetric", "table", "then", "to",
   "trailing", "true", "union", "unique", "user", "using", "variadic",
   "when", "where", "window", "with"]

/-- Modelled from the spec: §4.8 identifier validation, missing from the
provided sources.  The destination database name is accepted iff it is
non-empty, equals its own whitespace-trimmed form, starts with a lowercase
ASCII letter or underscore, contains only lowercase ASCII letters, digits
and underscores, and is not a reserved word; any violation is the single
error `Invalid db name`. -/
def validate_dbname (name : String) : Except String Unit :=
  let cs := name.toList
  if cs.isEmpty then .error "Invalid db name"
  else if cs ≠ trimChars cs then .error "Invalid db name"
  else
    match cs with
    | [] => .error "Invalid db name"
    | c0 :: _ =>
        if ¬ (isLowerAlpha c0 = true ∨ c0 = '_') then .error "Invalid db name"
        else if ¬ (cs.all fun c => isLowerAlpha c || isDigitChar c || c = '_') then
          .error "Invalid db name"
        else if reservedWords.contains name then .error "Invalid db name"
        else .ok ()

/-- UTF-8 code points of an ASCII tag. -/
def asciiBytes (s : String) : List Nat := s.toList.map Char.toNat

/-- An entry is a `TABLE DATA` entry with the given tag. -/
def isTableDataWithTag (e : TocEntry) (t : String) : Bool :=
  (e.description == TocString.new (asciiBytes "TABLE DATA")) &&
  (e.tag == TocString.new (asciiBytes t))

/-- Modelled from the spec: the 1-based position (0 = not present) of a
catalog's `TABLE DATA` entry, §4.7 catalog reordering. -/
def findPos (es : List TocEntry) (t : String) : Nat :=
  match es.findIdx? (fun e => isTableDataWithTag e t) with
  | some i => i + 1
  | Option.none => 0

/-- The four tracked catalogs besides `babelfish_sysdatabases`. -/
def trackedCatalogs : List String :=
  ["babelfish_extended_properties", "babelfish_function_ext",
   "babelfish_namespace_ext", "babelfish_view_def"]

/-- First tracked index whose position is nonzero and before the current
`babelfish_sysdatabases` position. -/
def findSwap (ps : List Nat) (sysPos : Nat) : Option Nat :=
  ps.findIdx? (fun p => p ≠ 0 && p < sysPos)

/-- Swap the entries at two (0-based) indices. -/
def swapEntries (es : List TocEntry) (i j : Nat) : List TocEntry :=
  match h1 : es[i]?, h2 : es[j]? with
  | some a, some b => (es.set i b).set j a
  | _, _ => es

/-- Modelled from the spec: the bubble-swap loop of §4.7 — repeatedly scan
the tracked positions and, whenever one is nonzero and less than the
current `sysdatabases` position, swap the two entries and the two tracked
positions; terminate when no swap occurs.  The `sysdatabases` position
strictly decreases at each swap, so fuel `es.length + 1` never runs out. -/
def reorderLoop : Nat → List TocEntry → Nat → List Nat →
    Except String (List TocEntry × Nat × List Nat)
  | 0, _, _, _ => .error "Reorder loop failure"
  | fuel + 1, es, sysPos, ps =>
      match findSwap ps sysPos with
      | Option.none => .ok (es, sysPos, ps)
      | some i =>
          let p := ps.getD i 0
          reorderLoop fuel (swapEntries es (p - 1) (sysPos - 1)) p (ps.set i sysPos)

/-- Modelled from the spec: §4.7 catalog reordering with the tracked state
exposed (final entry list, final `sysdatabases` position, final tracked
positions).  `babelfish_sysdatabases` missing is fatal. -/
def reorder_catalog_entries_full (es : List TocEntry) :
    Except String (List TocEntry × Nat × List Nat) :=
  let sysPos := findPos es "babelfish_sysdatabases"
  if sysPos = 0 then .error "Table not found: babelfish_sysdatabases"
  else reorderLoop (es.length + 1) es sysPos (trackedCatalogs.map (findPos es))

/-- Modelled from the spec: the catalog-reordering pass of §4.7. -/
def reorder_catalog_entries (es : List TocEntry) : Except String (List TocEntry) :=
  match reorder_catalog_entries_full es with
  | .error e => .error e
  | .ok (es2, _, _) => .ok es2

/-- Modelled from the spec: steps 1–4 of the rename pipeline (§4.7) —
validate the destination name, read header and entries, reorder the
catalog entries.  The per-entry mutation and write-out (steps 5–8) are
beyond the modelled fragment; validation failing first means no file is
touched. -/
def rewrite_toc (tocBytes : List Nat) (dbname : String) :
    Except String (TocHeader × List TocEntry) :=
  match validate_dbname dbname with
  | .error e => .error e
  | .ok _ =>
      match TocReader.read_header tocBytes with
      | Option.none => .error "TOC read failure"
      | some (h, r1) =>
          match TocReader.readEntries h.toc_count.toNat r1 with
          | Option.none => .error "TOC read failure"
          | some (es, _) =>
              match reorder_catalog_entries es with
              | .error e => .error e
              | .ok es2 => .ok (h, es2)

end SpecModel

/-- **C8**: the destination database name is accepted exactly under the
five spec conditions, any violation fails the rename pipeline with the
single error `Invalid db name` before anything is read or written, and the
S8 scenario names behave as specified. -/
theorem c8_dbname_validation (name : String) (tocBytes : List Nat) :
    (SpecModel.validate_dbname name = .ok () ↔
      (name.toList ≠ [] ∧
       name.toList = SpecModel.trimChars name.toList ∧
       (∃ c0 rest, name.toList = c0 :: rest ∧ (('a' ≤ c0 ∧ c0 ≤ 'z') ∨ c0 = '_')) ∧
       (∀ c ∈ name.toList, ('a' ≤ c ∧ c ≤ 'z') ∨ ('0' ≤ c ∧ c ≤ '9') ∨ c = '_') ∧
       ¬ name ∈ SpecModel.reservedWords)) ∧
    (SpecModel.validate_dbname name ≠ .ok () →
      SpecModel.rewrite_toc tocBytes name = .error "Invalid db name") ∧
    (SpecModel.validate_dbname "foo" = .ok () ∧
     SpecModel.validate_dbname "_bar" = .ok () ∧
     SpecModel.validate_dbname "a1_b" = .ok () ∧
     SpecModel.validate_dbname "" ≠ .ok () ∧
     SpecModel.validate_dbname " x" ≠ .ok () ∧
     SpecModel.validate_dbname "1abc" ≠ .ok () ∧
     SpecModel.validate_dbname "Abc" ≠ .ok () ∧
     SpecModel.validate_dbname "ab-c" ≠ .ok () ∧
     SpecModel.validate_dbname "select" ≠ .ok ()) := by
  have herr : SpecModel.validate_dbname name = .ok () ∨
      SpecModel.validate_dbname name = .error "Invalid db name" := by
    rw [SpecModel.validate_dbname]
    cases hcs : name.toList with
    | nil => simp
    | cons c0 rest =>
      dsimp only
      split_ifs <;> simp
  refine ⟨?_, ?_, rfl, rfl, rfl, fun h => Except.noConfusion h,
    fun h => Except.noConfusion h, fun h => Except.noConfusion h,
    fun h => Except.noConfusion h, fun h => Except.noConfusion h,
    fun h => Except.noConfusion h⟩
  · rw [SpecModel.validate_dbname]
    cases hcs : name.toList with
    | nil => simp
    | cons c0 rest =>
      dsimp only
      split_ifs with h1 h2 h3 h4 h5
      · simp at h1
      · exact ⟨fun hx => hx.elim, fun hx => absurd hx.2.1 h2⟩
      · refine ⟨fun hx => hx.elim, fun hx => absurd ?_ hx.2.2.2.2⟩
        simpa using h5
      · refine ⟨fun _ => ⟨by simp, not_ne_iff.mp h2, ⟨c0, rest, rfl, ?_⟩, ?_, ?_⟩,
          fun _ => rfl⟩
        · rcases h3 with h3a | h3b
          · simp only [SpecModel.isLowerAlpha, decide_eq_true_eq] at h3a
            exact Or.inl h3a
          · exact Or.inr h3b
        · intro c hc
          rw [List.all_eq_true] at h4
          have := h4 c hc
          simp only [SpecModel.isLowerAlpha, SpecModel.isDigitChar,
            Bool.or_eq_true, decide_eq_true_eq] at this
          tauto
        · intro hmem
          exact h5 (by simpa using hmem)
      · refine ⟨fun hx => hx.elim, fun hx => absurd ?_ h4⟩
        rw [List.all_eq_true]
        intro c hc
        have := hx.2.2.2.1 c hc
        simp only [SpecModel.isLowerAlpha, SpecModel.isDigitChar,
          Bool.or_eq_true, decide_eq_true_eq]
        tauto
      · refine ⟨fun hx => hx.elim, fun hx => absurd ?_ h3⟩
        obtain ⟨c1, rest1, heq, hc1⟩ := hx.2.2.1
        injection heq with heq1 _
        subst heq1
        simp only [SpecModel.isLowerAlpha, decide_eq_true_eq]
        tauto
  · intro hne
    rcases herr with hok | herr2
    · exact absurd hok hne
    · rw [SpecModel.rewrite_toc, herr2]

theorem cons_set_perm {α : Type} (xs : List α) : ∀ (m : Nat) (a x : α),
    xs[m]? = some x → (x :: xs.set m a).Perm (a :: xs) := by
  induction xs with
  | nil => intro m a x h; simp at h
  | cons y ys ih =>
    intro m a x h
    cases m with
    | zero =>
      simp only [List.getElem?_cons_zero, Option.some.injEq] at h
      subst h
      rw [List.set_cons_zero]
      exact List.Perm.swap _ _ _
    | succ m =>
      simp only [List.getElem?_cons_succ] at h
      rw [List.set_cons_succ]
      exact ((List.Perm.swap y x (ys.set m a)).trans
        ((ih m a x h).cons y)).trans (List.Perm.swap a y ys)

theorem set_swap_perm {α : Type} (l : List α) : ∀ (i j : Nat) (a b : α),
    l[i]? = some a → l[j]? = some b → i ≠ j →
    ((l.set i b).set j a).Perm l := by
  induction l with
  | nil => intro i j a b hi _ _; simp at hi
  | cons y ys ih =>
    intro i j a b hi hj hij
    cases i with
    | zero =>
      cases j with
      | zero => exact absurd rfl hij
      | succ j =>
        simp only [List.getElem?_cons_zero, Option.some.injEq] at hi
        simp only [List.getElem?_cons_succ] at hj
        subst hi
        rw [List.set_cons_zero, List.set_cons_succ]
        exact cons_set_perm ys j _ _ hj
    | succ i =>
      cases j with
      | zero =>
        simp only [List.getElem?_cons_zero, Option.some.injEq] at hj
        simp only [List.getElem?_cons_succ] at hi
        subst hj
        rw [List.set_cons_succ, List.set_cons_zero]
        exact cons_set_perm ys i _ _ hi
      | succ j =>
        simp only [List.getElem?_cons_succ] at hi hj
        rw [List.set_cons_succ, List.set_cons_succ]
        exact (ih i j a b hi hj (fun he => hij (by rw [he]))).cons y

theorem swapEntries_perm {es : List TocEntry} {i j : Nat} {a b : TocEntry}
    (hi : es[i]? = some a) (hj : es[j]? = some b) (hij : i ≠ j) :
    (SpecModel.swapEntries es i j).Perm es := by
  rw [SpecModel.swapEntries]
  split
  · rename_i a2 b2 h1 h2
    rw [hi] at h1
    rw [hj] at h2
    injection h1 with h1
    injection h2 with h2
    subst h1; subst h2
    exact set_swap_perm es i j a b hi hj hij
  · exact List.Perm.refl es

theorem swapEntries_length (es : List TocEntry) (i j : Nat) :
    (SpecModel.swapEntries es i j).length = es.length := by
  rw [SpecModel.swapEntries]
  split <;> simp

theorem findIdx?_some_spec {α : Type} {p : α → Bool} {l : List α} {i : Nat}
    (h : l.findIdx? p = some i) : ∃ x, l[i]? = some x ∧ p x = true := by
  rw [List.findIdx?_eq_some_iff_findIdx_eq] at h
  obtain ⟨hlt, hfi⟩ := h
  subst hfi
  exact ⟨l[l.findIdx p], List.getElem?_eq_getElem hlt, List.findIdx_getElem⟩

/-- Two tag matches on one entry force equal tag byte strings. -/
theorem isTag_inj {e : TocEntry} {t1 t2 : String}
    (h1 : SpecModel.isTableDataWithTag e t1 = true)
    (h2 : SpecModel.isTableDataWithTag e t2 = true) :
    SpecModel.asciiBytes t1 = SpecModel.asciiBytes t2 := by
  rw [SpecModel.isTableDataWithTag, Bool.and_eq_true, beq_iff_eq, beq_iff_eq] at h1 h2
  have := h1.2.symm.trans h2.2
  injection this with h
  injection h

/-- An entry index holds a `TABLE DATA` entry of the given tag (1-based
position). -/
def entryAtIs (es : List TocEntry) (pos : Nat) (t : String) : Prop :=
  ∃ e, es[pos - 1]? = some e ∧ SpecModel.isTableDataWithTag e t = true

theorem pos_ne_of_tags_ne {es : List TocEntry} {pos1 pos2 : Nat} {t1 t2 : String}
    (h1 : entryAtIs es pos1 t1) (h2 : entryAtIs es pos2 t2)
    (hne : SpecModel.asciiBytes t1 ≠ SpecModel.asciiBytes t2) : pos1 ≠ pos2 := by
  intro heq
  subst heq
  obtain ⟨e1, he1, ht1⟩ := h1
  obtain ⟨e2, he2, ht2⟩ := h2
  rw [he1] at he2
  injection he2 with he2
  subst he2
  exact hne (isTag_inj ht1 ht2)

/-- The loop invariant of the catalog reordering pass: the sysdatabases
position and the tracked positions are 1-based, in range, and point at
`TABLE DATA` entries carrying the corresponding tags. -/
def ReorderInv (es : List TocEntry) (sysPos : Nat) (ps : List Nat) : Prop :=
  1 ≤ sysPos ∧ sysPos ≤ es.length ∧
  entryAtIs es sysPos "babelfish_sysdatabases" ∧
  ps.length = 4 ∧
  (∀ i, i < 4 → ps.getD i 0 ≠ 0 →
    ps.getD i 0 ≤ es.length ∧
    entryAtIs es (ps.getD i 0) (SpecModel.trackedCatalogs.getD i ""))

theorem tracked_ne_sys : ∀ i, i < 4 →
    SpecModel.asciiBytes (SpecModel.trackedCatalogs.getD i "") ≠
      SpecModel.asciiBytes "babelfish_sysdatabases" := by
  decide

theorem tracked_pairwise_ne : ∀ i, i < 4 → ∀ j, j < 4 → i ≠ j →
    SpecModel.asciiBytes (SpecModel.trackedCatalogs.getD i "") ≠
      SpecModel.asciiBytes (SpecModel.trackedCatalogs.getD j "") := by
  decide

/-- The reordering loop: on success it permutes the entries, preserves the
invariant, preserves which tracked catalogs are present, and ends with every
present tracked position strictly after the sysdatabases position. -/
theorem reorderLoop_invariant : ∀ (fuel : Nat) (es : List TocEntry) (sysPos : Nat)
    (ps : List Nat) (es2 : List TocEntry) (s2 : Nat) (ps2 : List Nat),
    SpecModel.reorderLoop fuel es sysPos ps = .ok (es2, s2, ps2) →
    ReorderInv es sysPos ps →
    es2.Perm es ∧ ReorderInv es2 s2 ps2 ∧
    (∀ i, i < 4 → (ps2.getD i 0 = 0 ↔ ps.getD i 0 = 0)) ∧
    (∀ i, i < 4 → ps2.getD i 0 ≠ 0 → s2 < ps2.getD i 0) := by
  intro fuel
  induction fuel with
  | zero =>
    intro es sysPos ps es2 s2 ps2 hok
    exact absurd hok (fun h => Except.noConfusion h)
  | succ fuel ih =>
    intro es sysPos ps es2 s2 ps2 hok hinv
    rw [SpecModel.reorderLoop] at hok
    cases hfs : SpecModel.findSwap ps sysPos with
    | none =>
      rw [hfs] at hok
      dsimp only at hok
      injection hok with hok
      obtain ⟨he, hs, hp⟩ : es = es2 ∧ sysPos = s2 ∧ ps = ps2 := by
        have h1 := congrArg Prod.fst hok
        have h2 := congrArg (fun q => q.2.1) hok
        have h3 := congrArg (fun q => q.2.2) hok
        exact ⟨h1, h2, h3⟩
      subst he; subst hs; subst hp
      obtain ⟨hs1, hsl, hsys, hpl, htr⟩ := hinv
      refine ⟨List.Perm.refl es, ⟨hs1, hsl, hsys, hpl, htr⟩, fun i _ => Iff.rfl, ?_⟩
      intro i hi4 hne
      -- from findSwap = none: every tracked position is 0 or ≥ sysPos
      rw [SpecModel.findSwap, List.findIdx?_eq_none_iff] at hfs
      have hilt : i < ps.length := by rw [hpl]; exact hi4
      have hgd : ps.getD i 0 = ps[i] := by
        rw [List.getD_eq_getElem?_getD, List.getElem?_eq_getElem hilt]
        rfl
      have hmem : ps[i] ∈ ps := List.getElem_mem hilt
      have hx := hfs _ hmem
      rw [← hgd] at hx
      have hge : sysPos ≤ ps.getD i 0 := by
        by_contra hlt
        rw [Bool.and_eq_false_iff] at hx
        cases hx with
        | inl h => simp only [ne_eq, decide_not, Bool.not_eq_false', decide_eq_true_eq] at h; exact hne h
        | inr h => simp only [decide_eq_false_iff_not, not_lt] at h; exact hlt (by omega)
      have hneq : ps.getD i 0 ≠ sysPos :=
        pos_ne_of_tags_ne (htr i hi4 hne).2 hsys (tracked_ne_sys i hi4)
      omega
    | some i =>
      rw [hfs] at hok
      dsimp only at hok
      -- facts about the found index
      rw [SpecModel.findSwap] at hfs
      obtain ⟨p0, hpi, hp0⟩ := findIdx?_some_spec hfs
      have hilt : i < ps.length := by
        rw [List.getElem?_eq_some] at hpi
        exact hpi.1
      obtain ⟨hs1, hsl, hsys, hpl, htr⟩ := hinv
      have hi4 : i < 4 := by rw [hpl] at hilt; exact hilt
      have hgd : ps.getD i 0 = p0 := by
        rw [List.getD_eq_getElem?_getD, hpi]; rfl
      rw [Bool.and_eq_true] at hp0
      have hp0ne : p0 ≠ 0 := of_decide_eq_true hp0.1
      have hp0lt : p0 < sysPos := of_decide_eq_true hp0.2
      rw [hgd] at hok
      -- entries at the two positions
      obtain ⟨esys, hesys, htsys⟩ := hsys
      obtain ⟨hple, ⟨etr, hetr, httr⟩⟩ := htr i hi4 (by rw [hgd]; exact hp0ne)
      rw [hgd] at hple hetr
      have hp0sys : p0 ≠ sysPos := by omega
      have hidxne : p0 - 1 ≠ sysPos - 1 := by omega
      have hetr' : es[p0 - 1]? = some etr := hetr
      have hesys' : es[sysPos - 1]? = some esys := hesys
      -- the swap is a permutation
      have hperm : (SpecModel.swapEntries es (p0 - 1) (sysPos - 1)).Perm es :=
        swapEntries_perm hetr' hesys' hidxne
      have hswlen : (SpecModel.swapEntries es (p0 - 1) (sysPos - 1)).length = es.length := by
        rw [SpecModel.swapEntries]; split <;> simp
      -- the swap really is the double set
      have hswap : SpecModel.swapEntries es (p0 - 1) (sysPos - 1) =
          (es.set (p0 - 1) esys).set (sysPos - 1) etr := by
        rw [SpecModel.swapEntries]
        split
        · rename_i a2 b2 h1 h2
          rw [hetr'] at h1; rw [hesys'] at h2
          injection h1 with h1; injection h2 with h2
          rw [h1, h2]
        · rename_i hcon
          exact (hcon etr esys hetr' hesys').elim
      -- new invariant
      have hinv' : ReorderInv (SpecModel.swapEntries es (p0 - 1) (sysPos - 1)) p0
          (ps.set i sysPos) := by
        refine ⟨by omega, by rw [hswlen]; omega, ?_, by simp [hpl], ?_⟩
        · -- sysdatabases moved to position p0
          refine ⟨esys, ?_, htsys⟩
          rw [hswap, List.getElem?_set_ne hidxne.symm, List.getElem?_set_self (by omega)]
        · intro j hj4 hne
          have hjlt : j < ps.length := by rw [hpl]; exact hj4
          by_cases hji : j = i
          · subst hji
            have hset : (ps.set j sysPos).getD j 0 = sysPos := by
              rw [List.getD_eq_getElem?_getD, List.getElem?_set_self hjlt]; rfl
            rw [hset]
            refine ⟨by rw [hswlen]; omega, ⟨etr, ?_, httr⟩⟩
            rw [hswap, List.getElem?_set_self (by rw [List.length_set]; omega)]
          · have hset : (ps.set i sysPos).getD j 0 = ps.getD j 0 := by
              rw [List.getD_eq_getElem?_getD, List.getElem?_set_ne (fun h => hji h.symm),
                ← List.getD_eq_getElem?_getD]
            rw [hset] at hne ⊢
            obtain ⟨hqle, ⟨eq1, heq1, htq1⟩⟩ := htr j hj4 hne
            have hqsys : ps.getD j 0 ≠ sysPos :=
              pos_ne_of_tags_ne ⟨eq1, heq1, htq1⟩ ⟨esys, hesys, htsys⟩ (tracked_ne_sys j hj4)
            have hqp0 : ps.getD j 0 ≠ p0 := by
              rw [← hgd]
              exact pos_ne_of_tags_ne ⟨eq1, heq1, htq1⟩ ⟨etr, by rw [hgd]; exact hetr', httr⟩
                (tracked_pairwise_ne j hj4 i hi4 hji)
            have hq1 : ps.getD j 0 ≥ 1 := by omega
            refine ⟨by rw [hswlen]; exact hqle, ⟨eq1, ?_, htq1⟩⟩
            rw [hswap, List.getElem?_set_ne (by omega), List.getElem?_set_ne (by omega)]
            exact heq1
      obtain ⟨hP, hI, hZ, hS⟩ := ih _ _ _ _ _ _ hok hinv'
      refine ⟨hP.trans hperm, hI, ?_, hS⟩
      intro j hj4
      have hjlt : j < ps.length := by rw [hpl]; exact hj4
      by_cases hji : j = i
      · subst hji
        have hset : (ps.set j sysPos).getD j 0 = sysPos := by
          rw [List.getD_eq_getElem?_getD, List.getElem?_set_self hjlt]; rfl
        rw [hZ j hj4, hset, hgd]
        constructor
        · intro h; exact absurd h (by omega)
        · intro h; exact absurd h hp0ne
      · have hset : (ps.set i sysPos).getD j 0 = ps.getD j 0 := by
          rw [List.getD_eq_getElem?_getD, List.getElem?_set_ne (fun h => hji h.symm),
            ← List.getD_eq_getElem?_getD]
        rw [hZ j hj4, hset]

/-- A nonzero `findPos` is in range and points at a matching entry. -/
theorem findPos_spec {es : List TocEntry} {t : String}
    (h : SpecModel.findPos es t ≠ 0) :
    1 ≤ SpecModel.findPos es t ∧ SpecModel.findPos es t ≤ es.length ∧
    entryAtIs es (SpecModel.findPos es t) t := by
  rw [SpecModel.findPos] at h ⊢
  cases hfi : es.findIdx? (fun e => SpecModel.isTableDataWithTag e t) with
  | none => rw [hfi] at h; exact absurd rfl h
  | some k =>
    dsimp only
    obtain ⟨e, hek, hpe⟩ := findIdx?_some_spec hfi
    have hk : k < es.length := by
      rw [List.getElem?_eq_some] at hek
      exact hek.1
    refine ⟨by omega, by omega, ⟨e, ?_, hpe⟩⟩
    simpa using hek

theorem findPos_ne_zero_of_mem {es : List TocEntry} {t : String}
    (h : ∃ e ∈ es, SpecModel.isTableDataWithTag e t = true) :
    SpecModel.findPos es t ≠ 0 := by
  obtain ⟨e, hmem, hpe⟩ := h
  rw [SpecModel.findPos]
  cases hfi : es.findIdx? (fun e => SpecModel.isTableDataWithTag e t) with
  | none =>
    rw [List.findIdx?_eq_none_iff] at hfi
    rw [hfi e hmem] at hpe
    exact absurd hpe (by simp)
  | some k => simp

theorem tracked_map_getD (f : String → Nat) :
    ∀ i, i < 4 → (SpecModel.trackedCatalogs.map f).getD i 0 =
      f (SpecModel.trackedCatalogs.getD i "") := by
  intro i hi
  interval_cases i <;> rfl

/-- **C9**: after the catalog-reordering pass of a successful rename, the
result is a permutation of the input entry list (nothing added, removed or
duplicated), a `babelfish_sysdatabases` `TABLE DATA` entry is present at some
position, every tracked catalog whose `TABLE DATA` entry is present in the
input ends up at a position strictly greater than that of
`babelfish_sysdatabases`, and the absence of `babelfish_sysdatabases` is the
fatal error `Table not found: babelfish_sysdatabases`. -/
theorem c9_catalog_reorder (es es2 : List TocEntry)
    (hok : SpecModel.reorder_catalog_entries es = .ok es2) :
    es2.Perm es ∧
    (∀ es' : List TocEntry, SpecModel.findPos es' "babelfish_sysdatabases" = 0 →
      SpecModel.reorder_catalog_entries es' =
        .error "Table not found: babelfish_sysdatabases") ∧
    (∃ s2, entryAtIs es2 s2 "babelfish_sysdatabases" ∧
      ∀ i, i < 4 →
        (∃ e ∈ es, SpecModel.isTableDataWithTag e
          (SpecModel.trackedCatalogs.getD i "") = true) →
        ∃ j, s2 < j ∧ entryAtIs es2 j (SpecModel.trackedCatalogs.getD i "")) := by
  have herr : ∀ es' : List TocEntry,
      SpecModel.findPos es' "babelfish_sysdatabases" = 0 →
      SpecModel.reorder_catalog_entries es' =
        .error "Table not found: babelfish_sysdatabases" := by
    intro es' h0
    rw [SpecModel.reorder_catalog_entries, SpecModel.reorder_catalog_entries_full]
    simp only [h0, if_true]
  rw [SpecModel.reorder_catalog_entries] at hok
  cases hfull : SpecModel.reorder_catalog_entries_full es with
  | error e =>
    rw [hfull] at hok
    exact absurd hok (fun h => Except.noConfusion h)
  | ok trip =>
    obtain ⟨esf, s2, ps2⟩ := trip
    rw [hfull] at hok
    dsimp only at hok
    injection hok with hok
    subst hok
    rw [SpecModel.reorder_catalog_entries_full] at hfull
    by_cases h0 : SpecModel.findPos es "babelfish_sysdatabases" = 0
    · rw [if_pos h0] at hfull
      exact absurd hfull (fun h => Except.noConfusion h)
    · rw [if_neg h0] at hfull
      obtain ⟨hs1, hsl, hsys⟩ := findPos_spec h0
      have hinv0 : ReorderInv es (SpecModel.findPos es "babelfish_sysdatabases")
          (SpecModel.trackedCatalogs.map (SpecModel.findPos es)) := by
        refine ⟨hs1, hsl, hsys, by rfl, ?_⟩
        intro i hi4 hne
        rw [tracked_map_getD _ i hi4] at hne ⊢
        obtain ⟨_, hle, hat⟩ := findPos_spec hne
        exact ⟨hle, hat⟩
      obtain ⟨hP, hI, hZ, hS⟩ := reorderLoop_invariant _ _ _ _ _ _ _ hfull hinv0
      obtain ⟨_, _, hsys2, _, htr2⟩ := hI
      refine ⟨hP, herr, ⟨s2, hsys2, ?_⟩⟩
      intro i hi4 hpres
      have hfp : SpecModel.findPos es (SpecModel.trackedCatalogs.getD i "") ≠ 0 :=
        findPos_ne_zero_of_mem hpres
      have hps2 : ps2.getD i 0 ≠ 0 := by
        intro hz
        rw [hZ i hi4, tracked_map_getD _ i hi4] at hz
        exact hfp hz
      exact ⟨ps2.getD i 0, hS i hi4 hps2, (htr2 i hi4 hps2).2⟩

def c9EntTracked : TocEntry :=
  ⟨1, 0, TocString.none, TocString.none,
   TocString.new (SpecModel.asciiBytes "babelfish_function_ext"),
   TocString.new (SpecModel.asciiBytes "TABLE DATA"),
   0, TocString.none, TocString.none, TocString.none, TocString.none,
   TocString.none, TocString.none, TocString.none, TocString.none,
   [], TocString.none⟩

def c9EntSys : TocEntry :=
  ⟨2, 0, TocString.none, TocString.none,
   TocString.new (SpecModel.asciiBytes "babelfish_sysdatabases"),
   TocString.new (SpecModel.asciiBytes "TABLE DATA"),
   0, TocString.none, TocString.none, TocString.none, TocString.none,
   TocString.none, TocString.none, TocString.none, TocString.none,
   [], TocString.none⟩

def c9Es : List TocEntry := [c9EntTracked, c9EntSys]

def c9Es2 : List TocEntry := [c9EntSys, c9EntTracked]

/-- Concrete run of the reordering pass: a tracked catalog initially before
`babelfish_sysdatabases` is swapped after it, and the C9 invariants hold. -/
theorem c9_catalog_reorder_witness :
    SpecModel.reorder_catalog_entries c9Es = .ok c9Es2 ∧
    (c9Es2.Perm c9Es ∧
     (∀ es' : List TocEntry, SpecModel.findPos es' "babelfish_sysdatabases" = 0 →
       SpecModel.reorder_catalog_entries es' =
         .error "Table not found: babelfish_sysdatabases") ∧
     (∃ s2, entryAtIs c9Es2 s2 "babelfish_sysdatabases" ∧
       ∀ i, i < 4 →
         (∃ e ∈ c9Es, SpecModel.isTableDataWithTag e
           (SpecModel.trackedCatalogs.getD i "") = true) →
         ∃ j, s2 < j ∧ entryAtIs c9Es2 j (SpecModel.trackedCatalogs.getD i ""))) :=
  ⟨by rfl, c9_catalog_reorder c9Es c9Es2 (by rfl)⟩

end PgdumpToc